import Mathlib

/-
  Verification of the pc_project metrics / leverage-financing core.

  The development shallowly embeds the computation core of the repository:

  * `src/metrics.py`   : `_xnpv`, `xirr`, `_pic_calc`, `_dis_calc`, `metrics`
  * `src/fund_metrics.py` : `clean_data_fund`, `return_fund_info`,
                            `expand_and_join_curve`, `calc_monthly_fee`
  * `src/level_merge.py`  : `merge_deal_level`, `assign_fund_net_metrics`

  Modelling conventions:
  * Monetary amounts, rates and bps figures are rationals (ℚ); the discount
    rate in `xnpv` ranges over ℝ because the Python code raises a float to a
    real power (`(1 + rate) ** t`).
  * Dates handed to `xnpv`/`xirr` are day counts (ℚ), matching
    `(d - t0).days` in the source.
  * `scipy.optimize.newton` is third-party code, not part of this repository;
    it is abstracted as a `Solver` argument that receives the initial guess,
    the cashflows and the dates and either converges (`Except.ok`) or fails
    (`Except.error`), which is exactly the interface the `try/except` block
    in `xirr` consumes.
  * pandas DataFrames are modelled as association-list rows over an enumerated
    column type; a missing binding plays the role of NaN/None.
-/

namespace PC

/-- A root solver in the role of `scipy.optimize.newton`: it receives the
initial guess, the cashflows and the dates, and either converges to a rate or
fails with an error message (any Python exception). -/
abbrev Solver := ℚ → List ℚ → List ℚ → Except String ℚ

/-- Embeds `_xnpv` from `src/metrics.py`: ACT/365 net present value,
`npv = Σ cf / (1 + rate) ** ((d - t0).days / 365)` with `t0 = min(dates)`.
The empty-dates branch is unreachable from `xirr` (Python `min([])` would
raise there before any arithmetic). -/
noncomputable def xnpv (rate : ℝ) (cashflows dates : List ℚ) : ℝ :=
  match dates with
  | [] => 0
  | d0 :: rest =>
    let t0 : ℚ := rest.foldl min d0
    (cashflows.zip dates).foldl
      (fun acc p => acc + (p.1 : ℝ) / (1 + rate) ^ (((p.2 - t0 : ℚ) : ℝ) / 365)) 0

/-- Embeds the seed heuristic of `xirr`:
`initial_guess = -0.1 if sum(cashflows) < 0 else 0.1`. -/
def initialGuess (cashflows : List ℚ) : ℚ :=
  if cashflows.sum < 0 then -(1/10) else 1/10

/-- Embeds `xirr` from `src/metrics.py`: length check, sign-variety check,
then the Newton call guarded by `try/except`; every failure path returns
`None` (here `none`). -/
def xirr (solver : Solver) (cashflows dates : List ℚ) : Option ℚ :=
  if cashflows.length ≠ dates.length then none
  else if (∃ cf ∈ cashflows, 0 < cf) ∧ (∃ cf ∈ cashflows, cf < 0) then
    match solver (initialGuess cashflows) cashflows dates with
    | Except.ok r => some r
    | Except.error _ => none
  else none

/-- A solver that always fails, standing for a Newton call that raised. -/
def failSolver : Solver := fun _ _ _ => Except.error "did not converge"

/-- Enumerates the ledger/metrics columns that the embedded pipeline touches.
The source identifies columns by string name; an enumerated type is used here
so that column equality reduces definitionally. -/
inductive Col where
  | amount
  | asof
  | cashflow_type
  | entity_id
  | deal_id
  | fund
  | paid_in
  | distr
  | MOIC
  | xirr
deriving DecidableEq, Repr

/-- A cell value: a number or a string.  A missing binding in a `Row` plays
the role of pandas NaN/None. -/
inductive Val where
  | num (q : ℚ)
  | str (s : String)
deriving DecidableEq, Repr

/-- One DataFrame row: an association list from columns to values. -/
abbrev Row := List (Col × Val)

/-- A DataFrame: its column list plus its rows.  A column may be present in
`cols` while a given row has no binding for it (a NaN cell). -/
structure DataFrame where
  cols : List Col
  rows : List Row
deriving DecidableEq, Repr

/-- Looks a column up in a row (first binding wins). -/
def rowGet (r : Row) (c : Col) : Option Val :=
  match r with
  | [] => none
  | (c1, v) :: rest => if c1 = c then some v else rowGet rest c

/-- Numeric view of a cell; non-numeric or missing cells read as `none`. -/
def getNum (r : Row) (c : Col) : Option ℚ :=
  match rowGet r c with
  | some (Val.num q) => some q
  | _ => none

/-- Numeric view of a cell with a default.  With default 0 the comparisons
`amount < 0` / `amount > 0` agree with pandas semantics on NaN cells (a NaN
comparison is always False). -/
def getNumD (r : Row) (c : Col) (d : ℚ) : ℚ :=
  (getNum r c).getD d

/-- List filter by a decidable proposition (kept separate from `List.filter`
so that concrete instances reduce under `simp`). -/
def filterL (p : α → Prop) [DecidablePred p] : List α → List α
  | [] => []
  | x :: xs => if p x then x :: filterL p xs else filterL p xs

/-- First-occurrence deduplication (pandas `unique` / group-key order),
accumulating the values already seen. -/
def dedupFirst [DecidableEq α] : List α → List α → List α
  | _, [] => []
  | seen, x :: xs =>
    if x ∈ seen then dedupFirst seen xs else x :: dedupFirst (x :: seen) xs

/-- The tuple of group-key values of a row; `none` if any key cell is missing
(pandas `groupby` drops such rows). -/
def keyOf (cols : List Col) (r : Row) : Option (List Val) :=
  match cols with
  | [] => some []
  | c :: cs =>
    match rowGet r c, keyOf cs r with
    | some v, some k => some (v :: k)
    | _, _ => none

/-- Builds one output row of a group-by: the key columns bound to the key
values, then the aggregated column. -/
def mkGroupRow (cols : List Col) (k : List Val) (outCol : Col) (v : ℚ) :
    Row :=
  cols.zip k ++ [(outCol, Val.num v)]

/-- Sum of the `amount` column over rows (pandas group sum; NaN cells are
skipped, matching `skipna=True`). -/
def sumAmount (rows : List Row) : ℚ :=
  (rows.filterMap (fun r => getNum r Col.amount)).sum

/-- pandas `groupby(cols)['amount'].sum()`: group keys in first-occurrence
order (pandas sorts them; no claim below depends on the key order), rows with
a null key dropped. -/
def groupbySum (cols : List Col) (outCol : Col) (rows : List Row) :
    List Row :=
  (dedupFirst [] (rows.filterMap (keyOf cols))).map
    (fun k =>
      mkGroupRow cols k outCol
        (sumAmount (filterL (fun r => keyOf cols r = some k) rows)))

/-- The contributions partition of `_pic_calc`: rows with `amount < 0`, the
amount then multiplied by −1 for reporting
(`paid_in_df['amount'] = paid_in_df['amount'] * -1`). -/
def paidInRows (mdb : DataFrame) : List Row :=
  (filterL (fun r => getNumD r Col.amount 0 < 0) mdb.rows).map
    (fun r => (Col.amount, Val.num (getNumD r Col.amount 0 * (-1))) :: r)

/-- The distributions partition of `_dis_calc`: rows with `amount > 0`. -/
def posRows (mdb : DataFrame) : List Row :=
  filterL (fun r => 0 < getNumD r Col.amount 0) mdb.rows

/-- Embeds `_pic_calc` from `src/metrics.py`: missing `amount` or a missing
grouping column short-circuits to an empty, column-less frame; otherwise the
negative cashflows are selected, flipped positive, and group-summed as
`paid_in`. -/
def pic_calc (level : List Col) (mdb : DataFrame) : DataFrame :=
  if Col.amount ∉ mdb.cols then ⟨[], []⟩
  else if ∃ c ∈ level, c ∉ mdb.cols then ⟨[], []⟩
  else if paidInRows mdb = [] then ⟨level ++ [Col.paid_in], []⟩
  else ⟨level ++ [Col.paid_in], groupbySum level Col.paid_in (paidInRows mdb)⟩

/-- Embeds `_dis_calc` from `src/metrics.py`: positive cashflows group-summed
as `distr`, with the same missing-column short-circuits as `_pic_calc`. -/
def dis_calc (level : List Col) (mdb : DataFrame) : DataFrame :=
  if Col.amount ∉ mdb.cols then ⟨[], []⟩
  else if ∃ c ∈ level, c ∉ mdb.cols then ⟨[], []⟩
  else if posRows mdb = [] then ⟨level ++ [Col.distr], []⟩
  else ⟨level ++ [Col.distr], groupbySum level Col.distr (posRows mdb)⟩

/-- The group-summed reporting value of `paid_in` for key `k` (0 when the
group has no contribution rows, matching the later `fillna`). -/
def picSum (level : List Col) (k : List Val) (mdb : DataFrame) : ℚ :=
  sumAmount (filterL (fun r => keyOf level r = some k) (paidInRows mdb))

/-- The group-summed reporting value of `distr` for key `k` (0 when the group
has no distribution rows, matching the later `fillna`). -/
def disSum (level : List Col) (k : List Val) (mdb : DataFrame) : ℚ :=
  sumAmount (filterL (fun r => keyOf level r = some k) (posRows mdb))

/-- Embeds `pd.merge(l, r, on=on, how='outer')`.  pandas validates that every
`on` column exists in both frames and raises `KeyError` otherwise; matching
treats equal key tuples (including jointly-null cells) as equal, matched left
rows are extended with the right row's bindings, and unmatched right rows are
appended.  (pandas sorts outer-join keys; no claim below depends on row
order.) -/
def mergeRows (l r : DataFrame) (onCols : List Col) : List Row :=
  (l.rows.flatMap (fun lr =>
    let ms := filterL (fun rr => keyOf onCols rr = keyOf onCols lr) r.rows
    if ms = [] then [lr] else ms.map (fun rr => lr ++ rr)))
  ++ filterL (fun rr => ∀ lr ∈ l.rows, keyOf onCols lr ≠ keyOf onCols rr)
      r.rows

def mergeOuter (l r : DataFrame) (onCols : List Col) : Except String DataFrame :=
  if (∃ c ∈ onCols, c ∉ l.cols) ∨ (∃ c ∈ onCols, c ∉ r.cols) then
    Except.error "KeyError"
  else
    Except.ok
      ⟨l.cols ++ filterL (fun c => c ∉ l.cols) r.cols, mergeRows l r onCols⟩

/-- Embeds `fillna({c: 0})` for one column of one row. -/
def fillColZero (c : Col) (r : Row) : Row :=
  match rowGet r c with
  | some _ => r
  | none => (c, Val.num 0) :: r

/-- Embeds `metrics_df['MOIC'] = metrics_df['distr'] / metrics_df['paid_in']`
for one row.  If either operand is missing the result cell stays missing
(NaN arithmetic); ℚ division by zero yields 0 where pandas would produce
±inf — no claim below evaluates MOIC at `paid_in = 0`. -/
def moicAssign (r : Row) : Row :=
  match getNum r Col.paid_in, getNum r Col.distr with
  | some p, some d => (Col.MOIC, Val.num (d / p)) :: r
  | _, _ => r

/-- Sort rank for `sort_values('asof')`: rows with a missing date sort last
(pandas `na_position='last'`). -/
def asofRank (r : Row) : ℚ :=
  match getNum r Col.asof with
  | some _ => 0
  | none => 1

/-- Sort key for `sort_values('asof')` on rows with a date. -/
def asofVal (r : Row) : ℚ :=
  (getNum r Col.asof).getD 0

/-- Total preorder used by `sort_values('asof')`. -/
def asofLe (r s : Row) : Prop :=
  asofRank r < asofRank s ∨ (asofRank r = asofRank s ∧ asofVal r ≤ asofVal s)

instance : DecidableRel asofLe := fun r s => by
  unfold asofLe
  exact inferInstance

/-- Stable insertion of `x` into a sorted list (ties keep `x` first, i.e.
before later-inserted equals; the model sort is stable). -/
def insertSorted (le : α → α → Prop) [DecidableRel le] (x : α) :
    List α → List α
  | [] => [x]
  | y :: ys => if le x y then x :: y :: ys else y :: insertSorted le x ys

/-- Stable insertion sort (models `sort_values`; pandas' default quicksort is
unstable, but every list it is applied to below is re-sorted on a refinement
of an order it is already sorted by, where any comparison sort agrees). -/
def sortByLe (le : α → α → Prop) [DecidableRel le] : List α → List α
  | [] => []
  | x :: xs => insertSorted le x (sortByLe le xs)

/-- pandas `series.dropna().unique()`: non-null values of a column in
first-occurrence order. -/
def uniqueNonNull (c : Col) (rows : List Row) : List Val :=
  dedupFirst [] (rows.filterMap (fun r => rowGet r c))

/-- One row of the per-entity IRR frame: the entity value plus the `xirr`
result; a `None` IRR is a missing cell. -/
def irrRow (loop : Col) (u : Val) (res : Option ℚ) : Row :=
  (loop, u) ::
    (match res with
     | some q => [(Col.xirr, Val.num q)]
     | none => [])

/-- One entity's `xirr` result inside the `metrics` loop: filter the entity's
rows, sort them by `asof`, and run `xirr` on the amount/date lists. -/
def entityXirr (solver : Solver) (irr_loop : Col) (u : Val)
    (mdb : DataFrame) : Option ℚ :=
  let cdb := sortByLe asofLe
    (filterL (fun r => rowGet r irr_loop = some u) mdb.rows)
  xirr solver (cdb.map (fun r => getNumD r Col.amount 0))
    (cdb.map (fun r => getNumD r Col.asof 0))

/-- The per-entity IRR rows of `metrics`: for every distinct non-null value of
the entity column, one row with that entity's `xirr` result. -/
def irrRowsOf (solver : Solver) (irr_loop : Col) (mdb : DataFrame) :
    List Row :=
  (uniqueNonNull irr_loop mdb.rows).map (fun u =>
    irrRow irr_loop u (entityXirr solver irr_loop u mdb))

/-- Embeds `metrics` from `src/metrics.py`: the two partial aggregates, their
outer merge on the group key (pandas raises `KeyError` when a key column is
absent from either side — in particular when a partial aggregate came back as
an empty column-less frame), zero-fill, MOIC, then the per-entity IRR frame
outer-merged on the first group column.  `level[0]` on an empty list raises
(`IndexError`); when the entity list is empty the IRR frame is column-less
and the final merge raises, and when it is non-empty a missing `asof` column
raises inside the loop. -/
def metrics (solver : Solver) (level : List Col) (mdb : DataFrame) :
    Except String DataFrame :=
  match level with
  | [] => Except.error "IndexError"
  | irr_loop :: _ =>
    match mergeOuter (pic_calc level mdb) (dis_calc level mdb) level with
    | Except.error e => Except.error e
    | Except.ok m1 =>
      let withMOIC : DataFrame :=
        ⟨m1.cols ++ [Col.MOIC],
         (m1.rows.map (fun r => fillColZero Col.distr
            (fillColZero Col.paid_in r))).map moicAssign⟩
      if irr_loop ∉ mdb.cols then Except.error "KeyError"
      else if uniqueNonNull irr_loop mdb.rows ≠ [] ∧ Col.asof ∉ mdb.cols then
        Except.error "KeyError"
      else
        let irrRows := irrRowsOf solver irr_loop mdb
        mergeOuter withMOIC
          (if irrRows = [] then ⟨[], []⟩ else ⟨[irr_loop, Col.xirr], irrRows⟩)
          [irr_loop]

/-- A ledger frame that lacks the `fund` grouping column (used to settle the
missing-column claims). -/
def mdbNoFund : DataFrame :=
  ⟨[Col.entity_id, Col.asof, Col.amount],
   [[(Col.entity_id, Val.str "E1"), (Col.asof, Val.num 0),
     (Col.amount, Val.num (-1000))]]⟩

/-- The monetary half of `metrics` after the outer merge: zero-fill of
`paid_in`/`distr` followed by the MOIC column assignment, applied to the
merged partial aggregates. -/
def moicRows (level : List Col) (mdb : DataFrame) : List Row :=
  ((mergeRows (pic_calc level mdb) (dis_calc level mdb) level).map
    (fun r => fillColZero Col.distr (fillColZero Col.paid_in r))).map
    moicAssign

/-- The final row list of `metrics` (monetary aggregate outer-merged with the
per-entity IRR frame on the entity column); `mergeRows` only reads the rows
of its frame arguments. -/
def finalMetricsRows (solver : Solver) (irr_loop : Col) (rest : List Col)
    (mdb : DataFrame) : List Row :=
  mergeRows ⟨[], moicRows (irr_loop :: rest) mdb⟩
    ⟨[], irrRowsOf solver irr_loop mdb⟩ [irr_loop]

/-- The two-row ledger of the end-to-end scenario: a −1000 contribution on
2023-01-01 (day 0) and a +1200 exit fee on 2024-01-01 (day 365, 2023 not
being a leap year), all under entity E1, deal D1, fund F1. -/
def ledgerC3 : DataFrame :=
  ⟨[Col.entity_id, Col.deal_id, Col.fund, Col.cashflow_type, Col.asof,
    Col.amount],
   [[(Col.entity_id, Val.str "E1"), (Col.deal_id, Val.str "D1"),
     (Col.fund, Val.str "F1"), (Col.cashflow_type, Val.str "contribution"),
     (Col.asof, Val.num 0), (Col.amount, Val.num (-1000))],
    [(Col.entity_id, Val.str "E1"), (Col.deal_id, Val.str "D1"),
     (Col.fund, Val.str "F1"), (Col.cashflow_type, Val.str "exit_fee"),
     (Col.asof, Val.num 365), (Col.amount, Val.num 1200)]]⟩

/-- Expected column list of `metrics` on the end-to-end scenario. -/
def c3Cols : List Col :=
  [Col.entity_id, Col.deal_id, Col.fund, Col.paid_in, Col.distr, Col.MOIC,
   Col.xirr]

/-- Expected single output row of `metrics` on the end-to-end scenario, with
the rate `r` delivered by the solver. -/
def c3Row (r : ℚ) : Row :=
  [(Col.MOIC, Val.num (6/5)),
   (Col.entity_id, Val.str "E1"), (Col.deal_id, Val.str "D1"),
   (Col.fund, Val.str "F1"), (Col.paid_in, Val.num 1000),
   (Col.entity_id, Val.str "E1"), (Col.deal_id, Val.str "D1"),
   (Col.fund, Val.str "F1"), (Col.distr, Val.num 1200),
   (Col.entity_id, Val.str "E1"), (Col.xirr, Val.num r)]

/-- A solver that returns the exact root 1/5 of the scenario's NPV. -/
def okSolverC3 : Solver := fun _ _ _ => Except.ok (1/5)

/-- A calendar date: absolute month index (year × 12 + month − 1) plus day of
month.  Ordering is chronological (lexicographic). -/
structure Date where
  mi : Int
  d : Int
deriving DecidableEq, Repr

/-- Chronological order on dates. -/
def dateLe (a b : Date) : Prop :=
  a.mi < b.mi ∨ (a.mi = b.mi ∧ a.d ≤ b.d)

instance : DecidableRel dateLe := fun a b => by
  unfold dateLe
  exact inferInstance

/-- Strict chronological order on dates. -/
def dateLt (a b : Date) : Prop :=
  a.mi < b.mi ∨ (a.mi = b.mi ∧ a.d < b.d)

instance : DecidableRel dateLt := fun a b => by
  unfold dateLt
  exact inferInstance

/-- Gregorian leap year. -/
def isLeap (y : Int) : Prop :=
  (y % 4 = 0 ∧ y % 100 ≠ 0) ∨ y % 400 = 0

instance (y : Int) : Decidable (isLeap y) := by
  unfold isLeap
  exact inferInstance

/-- Number of days of the month with absolute index `mi`. -/
def daysInMonth (mi : Int) : Int :=
  let m := Int.emod mi 12 + 1
  let y := Int.ediv mi 12
  if m = 2 then (if isLeap y then 29 else 28)
  else if m = 4 ∨ m = 6 ∨ m = 9 ∨ m = 11 then 30
  else 31

/-- The month-end date of the month with absolute index `mi`. -/
def monthEnd (mi : Int) : Date :=
  ⟨mi, daysInMonth mi⟩

/-- `pd.date_range(monthEnd a, monthEnd b, freq='ME')`: all month-ends with
index from `a` to `b` inclusive (empty when `b < a`). -/
def monthEndRange (a b : Int) : List Date :=
  (List.range (b - a + 1).toNat).map (fun i => monthEnd (a + i))

/-- Typed view of one master-ledger row, restricted to the columns that
`clean_data_fund` reads. -/
structure MdcRow where
  entity_id : String
  cashflow_type : String
  asof : Date
  amount : ℚ
  commitment : ℚ
  cost_of_funds_curve : String
  spread_bps_lev : ℚ
  undrawn_fee_bps : ℚ
  advance_rate : ℚ
  fund : String
deriving DecidableEq, Repr

/-- One output row of `clean_data_fund` (`exit_date` is null for entities
with no `exit_fee` record). -/
structure FundRow where
  entity_id : String
  con_date : Date
  con_amount : ℚ
  fund_commitment : ℚ
  cost_of_funds_curve : String
  fund_spread_bps_lev : ℚ
  fund_undrawn_fee_bps : ℚ
  advance_rate : ℚ
  fund : String
  finance_portion : ℚ
  credit_line : ℚ
  exit_date : Option Date
deriving DecidableEq, Repr

/-- Embeds `clean_data_fund` from `src/fund_metrics.py`: one row per
contribution row, with `finance_portion = amount × advance_rate` and
`credit_line = commitment × 0.2`, left-merged with the exit dates (an entity
with several `exit_fee` rows duplicates, one with none gets a null
`exit_date`). -/
def exitData (mdc : List MdcRow) : List (String × Date) :=
  (filterL (fun r => r.cashflow_type = "exit_fee") mdc).map
    (fun r => (r.entity_id, r.asof))

/-- The fund rows one contribution row expands to under the left merge with
the exit dates: one row per matching exit record, or a single row with a
null `exit_date` when the entity has none. -/
def contribRow (ex : List (String × Date)) (c : MdcRow) : List FundRow :=
  let base : FundRow :=
    { entity_id := c.entity_id, con_date := c.asof, con_amount := c.amount,
      fund_commitment := c.commitment,
      cost_of_funds_curve := c.cost_of_funds_curve,
      fund_spread_bps_lev := c.spread_bps_lev,
      fund_undrawn_fee_bps := c.undrawn_fee_bps,
      advance_rate := c.advance_rate, fund := c.fund,
      finance_portion := c.amount * c.advance_rate,
      credit_line := c.commitment * (2/10),
      exit_date := none }
  let ms : List (String × Date) :=
    filterL (fun e => e.1 = c.entity_id) ex
  if ms = [] then [base]
  else ms.map (fun e => { base with exit_date := some e.2 })

/-- Embeds `clean_data_fund` from `src/fund_metrics.py`. -/
def clean_data_fund (mdc : List MdcRow) : List FundRow :=
  (filterL (fun r => r.cashflow_type = "contribution") mdc).flatMap
    (contribRow (exitData mdc))

/-- One aggregated row of `return_fund_info`. -/
structure FundInfoRow where
  fund : String
  con_date : Date
  exit_date : Date
  finance_portion : ℚ
  undrawn : ℚ
  credit_line : ℚ
  cost_of_funds_curve : String
  fund_spread_bps_lev : ℚ
  fund_undrawn_fee_bps : ℚ
  advance_rate : ℚ
deriving DecidableEq, Repr

/-- The `(fund, con_date, exit_date)` group key of a draw with a known exit
date. -/
def fundGroupKey (p : FundRow × Date) : String × Date × Date :=
  (p.1.fund, p.1.con_date, p.2)

/-- Lexicographic order on `(fund, con_date, exit_date)` keys, fund names by
code points, dates chronologically — the order pandas leaves the grouped
rows in after `groupby(['fund','con_date','exit_date'])` followed by
`sort_values(['fund','con_date'])`. -/
def fundKeyLe (a b : String × Date × Date) : Prop :=
  a.1 < b.1 ∨ (a.1 = b.1 ∧
    (dateLt a.2.1 b.2.1 ∨ (a.2.1 = b.2.1 ∧ dateLe a.2.2 b.2.2)))

instance : DecidableRel fundKeyLe := fun a b => by
  unfold fundKeyLe
  exact inferInstance

/-- Applies the `np.where(first_mask, credit_line + finance_portion,
finance_portion)` undrawn logic: the first row of each fund (no earlier row
with the same fund, `groupby('fund').cumcount() == 0`) gets the full
credit-line capacity. -/
def applyUndrawn : List String → List FundInfoRow → List FundInfoRow
  | _, [] => []
  | seen, r :: rest =>
    if r.fund ∈ seen then
      { r with undrawn := r.finance_portion } :: applyUndrawn seen rest
    else
      { r with undrawn := r.credit_line + r.finance_portion } ::
        applyUndrawn (r.fund :: seen) rest

/-- Embeds `return_fund_info` from `src/fund_metrics.py`: group the draws by
`(fund, con_date, exit_date)` — pandas `groupby` drops rows whose exit date
is null — summing `finance_portion` and taking the first of the other
fields, with the grouped rows in ascending key order (`groupby` sorts its
keys; the subsequent `sort_values(['fund','con_date'])` re-sorts by a prefix
of that key and is order-preserving there), then apply the first-draw undrawn
logic. -/
def buildFundInfoRow (valid : List (FundRow × Date))
    (k : String × Date × Date) : FundInfoRow :=
  let g := filterL (fun p => fundGroupKey p = k) valid
  { fund := k.1, con_date := k.2.1, exit_date := k.2.2,
    finance_portion := (g.map (fun p => p.1.finance_portion)).sum,
    undrawn := 0,
    credit_line := (g.map (fun p => p.1.credit_line)).headD 0,
    cost_of_funds_curve :=
      (g.map (fun p => p.1.cost_of_funds_curve)).headD "",
    fund_spread_bps_lev :=
      (g.map (fun p => p.1.fund_spread_bps_lev)).headD 0,
    fund_undrawn_fee_bps :=
      (g.map (fun p => p.1.fund_undrawn_fee_bps)).headD 0,
    advance_rate := (g.map (fun p => p.1.advance_rate)).headD 0 }

/-- Embeds `return_fund_info` from `src/fund_metrics.py` (see the module
comment above `applyUndrawn` for the undrawn logic). -/
def fundInfoOfValid (valid : List (FundRow × Date)) : List FundInfoRow :=
  let keys := sortByLe fundKeyLe (dedupFirst [] (valid.map fundGroupKey))
  applyUndrawn [] (keys.map (buildFundInfoRow valid))

/-- Embeds `return_fund_info` from `src/fund_metrics.py`: pandas `groupby`
drops the rows whose exit date is null before aggregating. -/
def return_fund_info (db : List FundRow) : List FundInfoRow :=
  fundInfoOfValid (db.filterMap (fun r => r.exit_date.map (fun e => (r, e))))

/-- One monthly point of the cost-of-funds curve. -/
structure CurvePoint where
  asof : Date
  curve : String
  rate : ℚ
deriving DecidableEq, Repr

/-- One fund × month-end row of `expand_and_join_curve`.  `rate` (and hence
`all_in_rate`) is null when no curve point matches. -/
structure FundCurveRow where
  fund : String
  con_date : Date
  exit_date : Date
  month_end : Date
  payment_date : Date
  cost_of_funds_curve : String
  rate : Option ℚ
  all_in_rate : Option ℚ
  fund_spread_bps_lev : ℚ
  fund_undrawn_fee_bps : ℚ
  undrawn_fee_rate : ℚ
  finance_portion : ℚ
  undrawn : ℚ
deriving DecidableEq, Repr

/-- The curve rates matched to one `(curve name, month_end)` pair by the
left join: no match yields one null rate, several matches duplicate. -/
def joinRates (curveName : String) (me : Date) (curvedb : List CurvePoint) :
    List (Option ℚ) :=
  let ms := filterL (fun c => c.curve = curveName ∧ c.asof = me) curvedb
  if ms = [] then [none] else ms.map (fun c => some c.rate)

/-- One fund × month-end output row of `expand_and_join_curve`:
`all_in_rate = rate + spread/10000`, `undrawn_fee_rate = bps/10000`, and the
payment keyed to the 15th of the following month. -/
def buildCurveRow (r : FundInfoRow) (me : Date) (rate : Option ℚ) :
    FundCurveRow :=
  { fund := r.fund, con_date := r.con_date, exit_date := r.exit_date,
    month_end := me,
    payment_date := ⟨me.mi + 1, 15⟩,
    cost_of_funds_curve := r.cost_of_funds_curve,
    rate := rate,
    all_in_rate := rate.map (fun q => q + r.fund_spread_bps_lev / 10000),
    fund_spread_bps_lev := r.fund_spread_bps_lev,
    fund_undrawn_fee_bps := r.fund_undrawn_fee_bps,
    undrawn_fee_rate := r.fund_undrawn_fee_bps / 10000,
    finance_portion := r.finance_portion,
    undrawn := r.undrawn }

/-- Embeds `expand_and_join_curve` from `src/fund_metrics.py`: expand each
draw from the month-end before `con_date` to the month-end of `exit_date`,
left-join the curve on `(cost_of_funds_curve, month_end)`, compute the rate
columns, and filter to the inclusive `[con_date, exit_date]` window (the
payment date depends only on `month_end`, so computing it inside
`buildCurveRow` rather than after the filter is equivalent). -/
def expand_and_join_curve (fund_level : List FundInfoRow)
    (curvedb : List CurvePoint) : List FundCurveRow :=
  fund_level.flatMap (fun r =>
    filterL (fun row => dateLe r.con_date row.month_end ∧
      dateLe row.month_end r.exit_date)
      ((monthEndRange (r.con_date.mi - 1) (r.exit_date.mi)).flatMap
        (fun me =>
          (joinRates r.cost_of_funds_curve me curvedb).map
            (buildCurveRow r me))))

/-- The interactive what-if rate shock: a uniform shift of every curve rate,
applied to the curve table before the join. -/
def shockCurve (S : ℚ) (curvedb : List CurvePoint) : List CurvePoint :=
  curvedb.map (fun c => { c with rate := c.rate + S })

/-- One financing cashflow row of `calc_monthly_fee`. -/
structure FeeRow where
  payment_date : Date
  cashflow_type : String
  fund : String
  amount : Option ℚ
deriving DecidableEq, Repr

/-- Embeds `calc_monthly_fee` from `src/fund_metrics.py`: the concatenation
of one `interest` row per accrual row (`finance_portion × all_in_rate / 12`)
with one `undrawn_fee` row per accrual row
(`undrawn × undrawn_fee_rate / 12 × (−1)`), both keyed to the payment
date. -/
def calc_monthly_fee (rows : List FundCurveRow) : List FeeRow :=
  rows.map (fun r =>
    { payment_date := r.payment_date, cashflow_type := "interest",
      fund := r.fund,
      amount := r.all_in_rate.map (fun a => r.finance_portion * a / 12) })
  ++ rows.map (fun r =>
    { payment_date := r.payment_date, cashflow_type := "undrawn_fee",
      fund := r.fund,
      amount := some (r.undrawn * r.undrawn_fee_rate / 12 * (-1)) })

/-- Facility-level metrics row fed to `merge_deal_level` (numeric fields are
nullable after `pd.to_numeric(errors='coerce')`). -/
structure L3Row where
  entity_id : String
  deal_id : String
  fund : String
  facility_name : String
  paid_in : Option ℚ
  distr : Option ℚ
  MOIC : Option ℚ
  xirr : Option ℚ
deriving DecidableEq, Repr

/-- Deal-level metrics row fed to `merge_deal_level`. -/
structure L2Row where
  deal_id : String
  fund : String
  deal_name : String
  paid_in : Option ℚ
  distr : Option ℚ
  MOIC : Option ℚ
  xirr : Option ℚ
deriving DecidableEq, Repr

/-- Fund-level metrics row fed to `merge_deal_level`. -/
structure L1Row where
  fund : String
  paid_in : Option ℚ
  distr : Option ℚ
  MOIC : Option ℚ
  xirr : Option ℚ
deriving DecidableEq, Repr

/-- One row of the stacked hierarchy table (`net` fields still null). -/
structure HRow where
  level : String
  id : String
  name : String
  paid_in : Option ℚ
  distributed : Option ℚ
  gross_irr : Option ℚ
  gross_moic : Option ℚ
  net_irr : Option ℚ
  net_moic : Option ℚ
deriving DecidableEq, Repr

/-- Embeds `merge_deal_level` from `src/level_merge.py`: label and stack the
three levels in rank order Facility, Deal, Fund; `distr` becomes
`distributed`, `xirr`/`MOIC` become the gross metrics, and the net fields
start out null. -/
def merge_deal_level (l3 : List L3Row) (l2 : List L2Row) (l1 : List L1Row) :
    List HRow :=
  l3.map (fun r =>
    { level := "Facility", id := r.entity_id, name := r.facility_name,
      paid_in := r.paid_in, distributed := r.distr, gross_irr := r.xirr,
      gross_moic := r.MOIC, net_irr := none, net_moic := none })
  ++ l2.map (fun r =>
    { level := "Deal", id := r.deal_id, name := r.deal_name,
      paid_in := r.paid_in, distributed := r.distr, gross_irr := r.xirr,
      gross_moic := r.MOIC, net_irr := none, net_moic := none })
  ++ l1.map (fun r =>
    { level := "Fund", id := r.fund, name := r.fund,
      paid_in := r.paid_in, distributed := r.distr, gross_irr := r.xirr,
      gross_moic := r.MOIC, net_irr := none, net_moic := none })

/-- One fund-level net-metrics row (`xirr`/`MOIC` computed on the ledger with
financing cashflows injected). -/
structure NetRow where
  fund : String
  xirr : Option ℚ
  MOIC : Option ℚ
deriving DecidableEq, Repr

/-- A cell after the final `fillna('N/A')`: either the string sentinel or a
number. -/
inductive QNA where
  | na
  | val (q : ℚ)
deriving DecidableEq, Repr

/-- `fillna('N/A')` on one nullable cell. -/
def toNA : Option ℚ → QNA
  | none => QNA.na
  | some q => QNA.val q

/-- One row of the final comparison table. -/
structure FRow where
  level : String
  id : String
  name : String
  paid_in : QNA
  distributed : QNA
  gross_irr : QNA
  gross_moic : QNA
  net_irr : QNA
  net_moic : QNA
deriving DecidableEq, Repr

/-- Embeds `assign_fund_net_metrics` from `src/level_merge.py`: left-merge
the net table on `id = fund` (several matches duplicate a row, none
contributes nulls), assign `net_irr`/`net_moic` from the merged `xirr`/`MOIC`
on rows whose level is Fund, drop the helper columns, and `fillna('N/A')`
everywhere. -/
def assign_fund_net_metrics (mdc : List HRow) (net : List NetRow) :
    List FRow :=
  mdc.flatMap (fun r =>
    let ms := filterL (fun n => n.fund = r.id) net
    let pairs : List (Option ℚ × Option ℚ) :=
      if ms = [] then [(none, none)] else ms.map (fun n => (n.xirr, n.MOIC))
    pairs.map (fun p =>
      { level := r.level, id := r.id, name := r.name,
        paid_in := toNA r.paid_in, distributed := toNA r.distributed,
        gross_irr := toNA r.gross_irr, gross_moic := toNA r.gross_moic,
        net_irr := toNA (if r.level = "Fund" then p.1 else r.net_irr),
        net_moic := toNA (if r.level = "Fund" then p.2 else r.net_moic) }))

/-- A concrete two-draw ledger for one fund: the F1 fund draws 80 in month
660 and 50 six months later, both positions exiting in month 672. -/
def dbC6 : List FundRow :=
  [{ entity_id := "E1", con_date := ⟨660, 15⟩, con_amount := 100,
     fund_commitment := 100, cost_of_funds_curve := "SOFR",
     fund_spread_bps_lev := 250, fund_undrawn_fee_bps := 50,
     advance_rate := 8/10, fund := "F1", finance_portion := 80,
     credit_line := 20, exit_date := some ⟨672, 10⟩ },
   { entity_id := "E2", con_date := ⟨666, 15⟩, con_amount := 50,
     fund_commitment := 100, cost_of_funds_curve := "SOFR",
     fund_spread_bps_lev := 250, fund_undrawn_fee_bps := 50,
     advance_rate := 1, fund := "F1", finance_portion := 50,
     credit_line := 20, exit_date := some ⟨672, 10⟩ }]

/-- A facility-level metrics row for the hierarchy-merge run. -/
def f3C9 : L3Row :=
  { entity_id := "E1", deal_id := "D1", fund := "F1",
    facility_name := "FacA", paid_in := some 100, distr := some 120,
    MOIC := some (6/5), xirr := some (2/10) }

/-- A deal-level metrics row for the hierarchy-merge run. -/
def f2C9 : L2Row :=
  { deal_id := "D1", fund := "F1", deal_name := "DealA",
    paid_in := some 100, distr := some 120, MOIC := some (6/5),
    xirr := some (2/10) }

/-- A fund-level gross metrics row for the hierarchy-merge run. -/
def f1C9 : L1Row :=
  { fund := "F1", paid_in := some 100, distr := some 120,
    MOIC := some (6/5), xirr := some (2/10) }

/-- The fund-level net metrics row matched to F1. -/
def nC9 : NetRow :=
  { fund := "F1", xirr := some (15/100), MOIC := some (11/10) }

/-- A ledger with one closed position (EC, with an exit fee) and one open
position (EO, no exit fee) in the same fund. -/
def mdcC10 : List MdcRow :=
  [{ entity_id := "EC", cashflow_type := "contribution", asof := ⟨660, 15⟩,
     amount := 100, commitment := 100, cost_of_funds_curve := "SOFR",
     spread_bps_lev := 250, undrawn_fee_bps := 50, advance_rate := 8/10,
     fund := "F1" },
   { entity_id := "EO", cashflow_type := "contribution", asof := ⟨661, 10⟩,
     amount := 40, commitment := 100, cost_of_funds_curve := "SOFR",
     spread_bps_lev := 250, undrawn_fee_bps := 50, advance_rate := 8/10,
     fund := "F1" },
   { entity_id := "EC", cashflow_type := "exit_fee", asof := ⟨672, 10⟩,
     amount := -1, commitment := 100, cost_of_funds_curve := "SOFR",
     spread_bps_lev := 250, undrawn_fee_bps := 50, advance_rate := 8/10,
     fund := "F1" }]

-- Basic lemmas about the list and row infrastructure.

/-- Membership in `filterL`. -/
theorem mem_filterL {p : α → Prop} [DecidablePred p] {l : List α} {a : α} :
    a ∈ filterL p l ↔ a ∈ l ∧ p a := by
  induction l with
  | nil => simp [filterL]
  | cons x xs ih =>
    by_cases hx : p x
    · simp only [filterL, if_pos hx, List.mem_cons, ih]
      constructor
      · rintro (rfl | ⟨h1, h2⟩)
        · exact ⟨Or.inl rfl, hx⟩
        · exact ⟨Or.inr h1, h2⟩
      · rintro ⟨rfl | h1, h2⟩
        · exact Or.inl rfl
        · exact Or.inr ⟨h1, h2⟩
    · simp only [filterL, if_neg hx, List.mem_cons, ih]
      constructor
      · rintro ⟨h1, h2⟩
        exact ⟨Or.inr h1, h2⟩
      · rintro ⟨rfl | h1, h2⟩
        · exact absurd h2 hx
        · exact ⟨h1, h2⟩

/-- `filterL` of an everywhere-false predicate is empty. -/
theorem filterL_eq_nil {p : α → Prop} [DecidablePred p] {l : List α}
    (h : ∀ x ∈ l, ¬ p x) : filterL p l = [] := by
  induction l with
  | nil => rfl
  | cons x xs ih =>
    rw [filterL, if_neg (h x (List.mem_cons_self x xs))]
    exact ih (fun y hy => h y (List.mem_cons_of_mem x hy))

/-- On a duplicate-free list where `a` is the unique element satisfying `p`,
`filterL` returns exactly `[a]`. -/
theorem filterL_eq_singleton {p : α → Prop} [DecidablePred p] :
    ∀ {l : List α} {a : α}, a ∈ l → p a → (∀ x ∈ l, p x → x = a) →
      l.Nodup → filterL p l = [a] := by
  intro l
  induction l with
  | nil => intro a ha; exact absurd ha (List.not_mem_nil a)
  | cons y ys ih =>
    intro a ha hpa huniq hnd
    rcases List.mem_cons.mp ha with rfl | hmem
    · rw [filterL, if_pos hpa]
      have : filterL p ys = [] := by
        apply filterL_eq_nil
        intro x hx hpx
        have hxa := huniq x (List.mem_cons_of_mem _ hx) hpx
        subst hxa
        exact (List.nodup_cons.mp hnd).1 hx
      rw [this]
    · have hya : ¬ p y := by
        intro hpy
        have := huniq y (List.mem_cons_self y ys) hpy
        subst this
        exact (List.nodup_cons.mp hnd).1 hmem
      rw [filterL, if_neg hya]
      exact ih hmem hpa
        (fun x hx hpx => huniq x (List.mem_cons_of_mem _ hx) hpx)
        (List.nodup_cons.mp hnd).2

/-- Membership in `dedupFirst`. -/
theorem mem_dedupFirst [DecidableEq α] :
    ∀ {seen l : List α} {a : α},
      a ∈ dedupFirst seen l ↔ a ∈ l ∧ a ∉ seen := by
  intro seen l
  induction l generalizing seen with
  | nil => simp [dedupFirst]
  | cons x xs ih =>
    intro a
    by_cases hx : x ∈ seen
    · rw [dedupFirst, if_pos hx, ih]
      constructor
      · rintro ⟨h1, h2⟩
        exact ⟨List.mem_cons_of_mem _ h1, h2⟩
      · rintro ⟨h1, h2⟩
        rcases List.mem_cons.mp h1 with rfl | h1
        · exact absurd hx h2
        · exact ⟨h1, h2⟩
    · rw [dedupFirst, if_neg hx]
      constructor
      · intro h
        rcases List.mem_cons.mp h with rfl | h1
        · exact ⟨List.mem_cons_self _ _, hx⟩
        · have := ih.mp h1
          refine ⟨List.mem_cons_of_mem _ this.1, ?_⟩
          intro hc
          exact this.2 (List.mem_cons_of_mem _ hc)
      · rintro ⟨h1, h2⟩
        rcases List.mem_cons.mp h1 with rfl | h1
        · exact List.mem_cons_self _ _
        · by_cases hax : a = x
          · subst hax
            exact List.mem_cons_self _ _
          · refine List.mem_cons_of_mem _ (ih.mpr ⟨h1, ?_⟩)
            intro hc
            rcases List.mem_cons.mp hc with h | h
            · exact hax h
            · exact h2 h

/-- `dedupFirst` produces a duplicate-free list. -/
theorem nodup_dedupFirst [DecidableEq α] :
    ∀ (seen l : List α), (dedupFirst seen l).Nodup := by
  intro seen l
  induction l generalizing seen with
  | nil => exact List.nodup_nil
  | cons x xs ih =>
    by_cases hx : x ∈ seen
    · rw [dedupFirst, if_pos hx]
      exact ih seen
    · rw [dedupFirst, if_neg hx]
      refine List.nodup_cons.mpr ⟨?_, ih (x :: seen)⟩
      intro hc
      exact (mem_dedupFirst.mp hc).2 (List.mem_cons_self x seen)

/-- Cons with a different column does not change a lookup. -/
theorem rowGet_cons_ne {c1 c : Col} (hne : c1 ≠ c) (v : Val) (r : Row) :
    rowGet ((c1, v) :: r) c = rowGet r c := by
  rw [rowGet, if_neg hne]

/-- Lookup distributes over row concatenation: the left bindings win. -/
theorem rowGet_append (r s : Row) (c : Col) :
    rowGet (r ++ s) c =
      match rowGet r c with
      | some v => some v
      | none => rowGet s c := by
  induction r with
  | nil => rfl
  | cons p rest ih =>
    by_cases hc : p.1 = c
    · rw [List.cons_append, rowGet, rowGet, if_pos hc, if_pos hc]
    · rw [List.cons_append, rowGet, rowGet, if_neg hc, if_neg hc, ih]

/-- A key tuple has the same length as the key column list. -/
theorem keyOf_length {cols : List Col} {r : Row} {k : List Val}
    (h : keyOf cols r = some k) : k.length = cols.length := by
  induction cols generalizing k with
  | nil =>
    rw [keyOf] at h
    cases h
    rfl
  | cons c cs ih =>
    rw [keyOf] at h
    rcases h1 : rowGet r c with _ | v <;> rw [h1] at h
    · cases h
    · rcases h2 : keyOf cs r with _ | k0 <;> rw [h2] at h
      · cases h
      · cases h
        simp [ih h2]

/-- A leading binding for a column outside the key list is invisible to
`keyOf`. -/
theorem keyOf_cons_notmem {cols : List Col} {c : Col} (hc : c ∉ cols)
    (v : Val) (r : Row) :
    keyOf cols ((c, v) :: r) = keyOf cols r := by
  induction cols with
  | nil => rfl
  | cons c1 cs ih =>
    have h1 : c ≠ c1 := fun h => hc (h ▸ List.mem_cons_self c1 cs)
    have h2 : c ∉ cs := fun h => hc (List.mem_cons_of_mem _ h)
    rw [keyOf, keyOf, rowGet_cons_ne h1, ih h2]

/-- Looking up a column outside the zipped key prefix yields nothing. -/
theorem rowGet_zip_notmem {cols : List Col} {c : Col} (hc : c ∉ cols) :
    ∀ (k : List Val), rowGet (cols.zip k) c = none := by
  induction cols with
  | nil => intro k; rfl
  | cons c1 cs ih =>
    intro k
    cases k with
    | nil => rfl
    | cons v vs =>
      have h1 : c1 ≠ c := fun h => hc (h ▸ List.mem_cons_self c1 cs)
      rw [List.zip_cons_cons, rowGet_cons_ne h1, ih (fun h => hc (List.mem_cons_of_mem _ h))]

/-- Reading the key columns back from a group row returns its key tuple. -/
theorem keyOf_mkGroupRow {cols : List Col} {outCol : Col} {v : ℚ}
    (hnd : cols.Nodup) (hout : outCol ∉ cols) :
    ∀ {k : List Val}, k.length = cols.length →
      keyOf cols (mkGroupRow cols k outCol v) = some k := by
  induction cols with
  | nil =>
    intro k hk
    cases k with
    | nil => rfl
    | cons a b => cases hk
  | cons c cs ih =>
    intro k hk
    cases k with
    | nil => cases hk
    | cons v0 vs =>
      have hccs : c ∉ cs := (List.nodup_cons.mp hnd).1
      have houtc : outCol ≠ c := fun h => hout (h ▸ List.mem_cons_self c cs)
      have houtcs : outCol ∉ cs := fun h => hout (List.mem_cons_of_mem _ h)
      rw [keyOf]
      have e1 : rowGet (mkGroupRow (c :: cs) (v0 :: vs) outCol v) c = some v0 := by
        rw [mkGroupRow, List.zip_cons_cons, List.cons_append, rowGet, if_pos rfl]
      have e2 : keyOf cs (mkGroupRow (c :: cs) (v0 :: vs) outCol v) =
          keyOf cs (mkGroupRow cs vs outCol v) := by
        rw [mkGroupRow, List.zip_cons_cons, List.cons_append]
        exact keyOf_cons_notmem hccs v0 _
      rw [e1, e2, ih (List.nodup_cons.mp hnd).2 houtcs (by simpa using hk)]

/-- Reading the aggregate column from a group row returns the aggregate. -/
theorem rowGet_mkGroupRow_out {cols : List Col} {outCol : Col} {v : ℚ}
    (hout : outCol ∉ cols) (k : List Val) :
    rowGet (mkGroupRow cols k outCol v) outCol = some (Val.num v) := by
  rw [mkGroupRow, rowGet_append, rowGet_zip_notmem hout k]
  show rowGet [(outCol, Val.num v)] outCol = some (Val.num v)
  rw [rowGet, if_pos rfl]

/-- Reading any column other than the keys and the aggregate from a group row
returns nothing. -/
theorem rowGet_mkGroupRow_other {cols : List Col} {outCol c : Col} {v : ℚ}
    (hc : c ∉ cols) (hco : c ≠ outCol) (k : List Val) :
    rowGet (mkGroupRow cols k outCol v) c = none := by
  rw [mkGroupRow, rowGet_append, rowGet_zip_notmem hc k]
  show rowGet [(outCol, Val.num v)] c = none
  have hoc : outCol ≠ c := fun h => hco h.symm
  rw [rowGet_cons_ne hoc]
  rfl

/-- Closed-form evaluation of `xnpv` on the three-point cashflow set
`[100, -100, 100]` at yearly dates `[0, 365, 730]`. -/
theorem xnpv_three_point (r : ℝ) :
    xnpv r [100, -100, 100] [0, 365, 730] =
      100 - 100 / (1 + r) + 100 / (1 + r) ^ (2 : ℕ) := by
  have h0 : ((((0:ℚ) - 0 : ℚ) : ℝ) / 365) = 0 := by norm_num
  have h1 : ((((365:ℚ) - 0 : ℚ) : ℝ) / 365) = 1 := by norm_num
  have h2 : ((((730:ℚ) - 0 : ℚ) : ℝ) / 365) = ((2:ℕ) : ℝ) := by norm_num
  have hmin : min (min (0:ℚ) 365) 730 = 0 := by
    simp [min_def]
  simp only [xnpv, List.zip, List.zipWith, List.foldl]
  rw [hmin, h0, h1, h2, Real.rpow_zero, Real.rpow_one, Real.rpow_natCast]
  push_cast
  ring

/-- The three-point set `[100, -100, 100]` admits no rate at all whose ACT/365
NPV is within `1e-4` of zero: the NPV is at least 75 for every real rate. -/
theorem xnpv_three_point_no_root (r : ℝ) :
    1 / 10000 < |xnpv r [100, -100, 100] [0, 365, 730]| := by
  rw [xnpv_three_point]
  set y : ℝ := 1 + r with hy
  rcases eq_or_ne y 0 with h0 | h0
  · rw [h0]
    norm_num
  · have hy2 : (0:ℝ) < y ^ 2 := by positivity
    have hval : 100 - 100 / y + 100 / y ^ (2:ℕ) =
        (100 * y ^ 2 - 100 * y + 100) / y ^ 2 := by
      field_simp
      ring
    have hnum : (75:ℝ) * y ^ 2 ≤ 100 * y ^ 2 - 100 * y + 100 := by
      nlinarith [sq_nonneg (y - 2)]
    have hpos : (0:ℝ) < (100 * y ^ 2 - 100 * y + 100) / y ^ 2 := by
      apply div_pos _ hy2
      nlinarith [sq_nonneg (y - 2), hy2]
    rw [hval, abs_of_pos hpos]
    rw [lt_div_iff₀ hy2]
    nlinarith [sq_nonneg (y - 2), hy2]

/-- C1 (counterexample): the round-trip claim fails on the code.  The input
`[100, -100, 100]` at dates `[0, 365, 730]` has at least one positive and one
negative amount and equal lengths, yet there is no rate `r` that `xirr` could
return whose NPV is within `1e-4` of zero, because the NPV is at least 75
everywhere. -/
theorem c1_counterexample :
    ¬ ∃ (solver : Solver) (r : ℚ),
        xirr solver [100, -100, 100] [0, 365, 730] = some r ∧
        |xnpv (r : ℝ) [100, -100, 100] [0, 365, 730]| ≤ 1 / 10000 := by
  rintro ⟨solver, r, -, habs⟩
  exact absurd habs (not_le.mpr (xnpv_three_point_no_root (r : ℝ)))

/-- C1 (amended): a root of the ACT/365 NPV with `1 + r > 0` is guaranteed to
exist (so a convergent root-finder can satisfy the round-trip bound) in the
two-point case of one contribution followed by one later distribution; for
general mixed-sign sets no such rate need exist and `xirr` may return null. -/
theorem c1_two_point_root_exists (a b d0 d1 : ℚ)
    (ha : 0 < a) (hb : 0 < b) (hd : d0 < d1) :
    ∃ r : ℝ, 0 < 1 + r ∧ xnpv r [-a, b] [d0, d1] = 0 := by
  have haR : (0:ℝ) < (a:ℚ) := by exact_mod_cast ha
  have hbR : (0:ℝ) < (b:ℚ) := by exact_mod_cast hb
  have hβ : (0:ℝ) < (b:ℝ) / (a:ℝ) := div_pos hbR haR
  have hΔ : (0:ℝ) < ((d1 - d0 : ℚ) : ℝ) := by
    have : (0:ℚ) < d1 - d0 := by linarith
    exact_mod_cast this
  set Δ : ℝ := ((d1 - d0 : ℚ) : ℝ) with hΔdef
  refine ⟨((b:ℝ) / (a:ℝ)) ^ (365 / Δ) - 1, ?_, ?_⟩
  · have := Real.rpow_pos_of_pos hβ (365 / Δ)
    linarith
  · have ht0 : min d0 d1 = d0 := min_eq_left (le_of_lt hd)
    have h0 : ((((d0:ℚ) - d0 : ℚ) : ℝ) / 365) = 0 := by
      push_cast
      ring
    have hbase : 1 + (((b:ℝ) / (a:ℝ)) ^ (365 / Δ) - 1) =
        ((b:ℝ) / (a:ℝ)) ^ (365 / Δ) := by ring
    simp only [xnpv, List.zip, List.zipWith, List.foldl]
    rw [ht0, h0, Real.rpow_zero, hbase]
    rw [← Real.rpow_mul (le_of_lt hβ)]
    have hΔne : Δ ≠ 0 := ne_of_gt hΔ
    have hexp : 365 / Δ * (Δ / 365) = 1 := by
      field_simp
    rw [hexp, Real.rpow_one]
    have hae : (a:ℝ) ≠ 0 := ne_of_gt haR
    have hbe : (b:ℝ) ≠ 0 := ne_of_gt hbR
    field_simp

/-- Witness for the amended C1 theorem at the spec's own example
(−100 at day 0, +110 at day 365). -/
theorem c1_two_point_root_exists_witness :
    (0:ℚ) < 100 ∧ (0:ℚ) < 110 ∧ (0:ℚ) < 365 ∧
      ∃ r : ℝ, 0 < 1 + r ∧ xnpv r [-100, 110] [0, 365] = 0 := by
  refine ⟨by norm_num, by norm_num, by norm_num, ?_⟩
  exact c1_two_point_root_exists 100 110 0 365 (by norm_num) (by norm_num)
    (by norm_num)

/-- C2: `xirr` returns `none` (never an exception) on every failure path:
length mismatch, missing sign variety, or a solver error (non-convergence,
overflow, any exception caught by the `try/except`). -/
theorem c2_xirr_null_on_failure (solver : Solver) (cfs ds : List ℚ)
    (h : cfs.length ≠ ds.length ∨
         (¬ ∃ cf ∈ cfs, 0 < cf) ∨
         (¬ ∃ cf ∈ cfs, cf < 0) ∨
         ∃ msg, solver (initialGuess cfs) cfs ds = Except.error msg) :
    xirr solver cfs ds = none := by
  unfold xirr
  split_ifs with hlen hsgn
  · rfl
  · rcases h with hl | hnp | hnn | ⟨msg, hmsg⟩
    · exact absurd hl hlen
    · exact absurd hsgn.1 hnp
    · exact absurd hsgn.2 hnn
    · rw [hmsg]
  · rfl

/-- Witness for C2: a concrete mixed-sign input on which the solver fails and
`xirr` returns `none`. -/
theorem c2_xirr_null_on_failure_witness :
    (∃ msg, failSolver (initialGuess [-100, 110]) [-100, 110] [0, 365] =
      Except.error msg) ∧
    xirr failSolver [-100, 110] [0, 365] = none := by
  constructor
  · exact ⟨"did not converge", rfl⟩
  · exact c2_xirr_null_on_failure failSolver [-100, 110] [0, 365]
      (Or.inr (Or.inr (Or.inr ⟨"did not converge", rfl⟩)))

/-- Closed-form evaluation of `xnpv` on the end-to-end scenario's cashflows:
−1000 at day 0 and +1200 at day 365. -/
theorem xnpv_c3 (r : ℝ) :
    xnpv r [-1000, 1200] [0, 365] = -1000 + 1200 / (1 + r) := by
  have hmin : min (0:ℚ) 365 = 0 := by simp [min_def]
  have h0 : ((((0:ℚ) - 0 : ℚ) : ℝ) / 365) = 0 := by norm_num
  have h1 : ((((365:ℚ) - 0 : ℚ) : ℝ) / 365) = 1 := by norm_num
  simp only [xnpv, List.zip, List.zipWith, List.foldl]
  rw [hmin, h0, h1, Real.rpow_zero, Real.rpow_one]
  push_cast
  ring

/-- Any rate whose NPV on the scenario's cashflows is within `1e-4` of zero
lies within `1e-6` of the exact root 0.2. -/
theorem c3_rate_close (r : ℝ)
    (h : |xnpv r [-1000, 1200] [0, 365]| ≤ 1 / 10000) :
    |r - 1/5| ≤ 1 / 1000000 := by
  rw [xnpv_c3] at h
  rcases abs_le.mp h with ⟨h1, h2⟩
  set y : ℝ := 1 + r with hy
  rcases lt_trichotomy y 0 with hneg | hzero | hpos
  · exfalso
    have : (1200:ℝ) / y < 0 := div_neg_of_pos_of_neg (by norm_num) hneg
    linarith
  · exfalso
    rw [hzero] at h1
    norm_num at h1
  · have hker : (1200:ℝ) / y * y = 1200 := div_mul_cancel₀ _ (ne_of_gt hpos)
    have h1' := mul_le_mul_of_nonneg_right h1 (le_of_lt hpos)
    have h2' := mul_le_mul_of_nonneg_right h2 (le_of_lt hpos)
    rw [add_mul, hker] at h1' h2'
    rw [abs_le]
    constructor <;> nlinarith

set_option maxHeartbeats 2000000 in
/-- Full evaluation of `metrics` on the two-row scenario ledger, parametric in
the rate the solver converges to. -/
theorem metrics_c3_run (solver : Solver) (r : ℚ)
    (hs : solver (1/10) [-1000, 1200] [0, 365] = Except.ok r) :
    metrics solver [Col.entity_id, Col.deal_id, Col.fund] ledgerC3 =
      Except.ok ⟨c3Cols, [c3Row r]⟩ := by
  have hsum : ((-1000 : ℚ) + (1200 + 0)) = 200 := by norm_num
  have hs10 : ((10:ℚ)⁻¹) = 1/10 := by norm_num
  have hsI : solver (10⁻¹ : ℚ) [-1000, 1200] [0, 365] = Except.ok r := by
    rw [hs10]
    exact hs
  simp +decide [metrics, pic_calc, dis_calc, paidInRows, posRows, mergeOuter,
    mergeRows, groupbySum, mkGroupRow, filterL, dedupFirst, keyOf, rowGet,
    getNum, getNumD, sumAmount, fillColZero, moicAssign, uniqueNonNull,
    irrRowsOf, entityXirr, irrRow, sortByLe, insertSorted, asofLe, asofRank,
    asofVal, xirr, initialGuess, ledgerC3, c3Cols, c3Row, hsI, hsum,
    Function.comp]
  norm_num

/-- C3: on the scenario ledger, `metrics(['entity_id','deal_id','fund'])`
returns exactly one row, with `paid_in = 1000` (positive magnitude),
`distr = 1200`, `MOIC = 1.2`, and an `xirr` within `1e-6` of 0.20, for any
solver that converges on E1's sorted cashflows to a rate whose NPV is within
the round-trip tolerance. -/
theorem c3_end_to_end (solver : Solver) (r : ℚ)
    (hs : solver (1/10) [-1000, 1200] [0, 365] = Except.ok r)
    (hclose : |xnpv (r : ℝ) [-1000, 1200] [0, 365]| ≤ 1 / 10000) :
    ∃ df : DataFrame,
      metrics solver [Col.entity_id, Col.deal_id, Col.fund] ledgerC3 =
        Except.ok df ∧
      df.rows.length = 1 ∧
      ∀ row ∈ df.rows,
        rowGet row Col.entity_id = some (Val.str "E1") ∧
        rowGet row Col.deal_id = some (Val.str "D1") ∧
        rowGet row Col.fund = some (Val.str "F1") ∧
        rowGet row Col.paid_in = some (Val.num 1000) ∧
        rowGet row Col.distr = some (Val.num 1200) ∧
        rowGet row Col.MOIC = some (Val.num (6/5)) ∧
        rowGet row Col.xirr = some (Val.num r) ∧
        |(r : ℝ) - 1/5| ≤ 1 / 1000000 := by
  refine ⟨⟨c3Cols, [c3Row r]⟩, metrics_c3_run solver r hs, rfl, ?_⟩
  intro row hrow
  rcases List.mem_singleton.mp hrow with rfl
  refine ⟨?_, ?_, ?_, ?_, ?_, ?_, ?_, c3_rate_close (r : ℝ) hclose⟩ <;>
    simp [c3Row, rowGet]

/-- Witness for C3: the constant solver returning the exact root 0.2. -/
theorem c3_end_to_end_witness :
    (okSolverC3 (1/10) [-1000, 1200] [0, 365] = Except.ok (1/5)) ∧
    (|xnpv ((1/5 : ℚ) : ℝ) [-1000, 1200] [0, 365]| ≤ 1 / 10000) ∧
    ∃ df : DataFrame,
      metrics okSolverC3 [Col.entity_id, Col.deal_id, Col.fund] ledgerC3 =
        Except.ok df ∧
      df.rows.length = 1 ∧
      ∀ row ∈ df.rows,
        rowGet row Col.entity_id = some (Val.str "E1") ∧
        rowGet row Col.deal_id = some (Val.str "D1") ∧
        rowGet row Col.fund = some (Val.str "F1") ∧
        rowGet row Col.paid_in = some (Val.num 1000) ∧
        rowGet row Col.distr = some (Val.num 1200) ∧
        rowGet row Col.MOIC = some (Val.num (6/5)) ∧
        rowGet row Col.xirr = some (Val.num (1/5)) ∧
        |((1/5 : ℚ) : ℝ) - 1/5| ≤ 1 / 1000000 := by
  have hclose : |xnpv ((1/5 : ℚ) : ℝ) [-1000, 1200] [0, 365]| ≤ 1 / 10000 := by
    rw [xnpv_c3]
    norm_num
  exact ⟨rfl, hclose, c3_end_to_end okSolverC3 (1/5) rfl hclose⟩

/-- C5 (counterexample): on a ledger that lacks the `fund` grouping column,
`_pic_calc` does come back empty, but `metrics` itself does not return the
other partial results — it aborts: the outer merge on the missing key column
raises `KeyError` (the empty partial frames have no columns at all). -/
theorem c5_counterexample :
    pic_calc [Col.fund] mdbNoFund = ⟨[], []⟩ ∧
    dis_calc [Col.fund] mdbNoFund = ⟨[], []⟩ ∧
    metrics failSolver [Col.fund] mdbNoFund = Except.error "KeyError" := by
  refine ⟨rfl, rfl, ?_⟩
  rfl

/-- C5 (amended): when `amount` or any grouping column is missing, both
partial computations yield an empty column-less frame, and the `metrics` call
then aborts with a `KeyError` at the merge on the group key instead of
returning the remaining results. -/
theorem c5_missing_column_aborts (solver : Solver) (level : List Col)
    (mdb : DataFrame) (hne : level ≠ [])
    (h : Col.amount ∉ mdb.cols ∨ ∃ c ∈ level, c ∉ mdb.cols) :
    pic_calc level mdb = ⟨[], []⟩ ∧ dis_calc level mdb = ⟨[], []⟩ ∧
    metrics solver level mdb = Except.error "KeyError" := by
  have hpic : pic_calc level mdb = ⟨[], []⟩ := by
    unfold pic_calc
    rcases h with h | h
    · rw [if_pos h]
    · by_cases hA : Col.amount ∉ mdb.cols
      · rw [if_pos hA]
      · rw [if_neg hA, if_pos h]
  have hdis : dis_calc level mdb = ⟨[], []⟩ := by
    unfold dis_calc
    rcases h with h | h
    · rw [if_pos h]
    · by_cases hA : Col.amount ∉ mdb.cols
      · rw [if_pos hA]
      · rw [if_neg hA, if_pos h]
  refine ⟨hpic, hdis, ?_⟩
  cases level with
  | nil => exact absurd rfl hne
  | cons c cs =>
    unfold metrics
    rw [hpic, hdis]
    have hmerge : mergeOuter ⟨[], []⟩ ⟨[], []⟩ (c :: cs) =
        Except.error "KeyError" := by
      unfold mergeOuter
      rw [if_pos]
      exact Or.inl ⟨c, List.mem_cons_self c cs, List.not_mem_nil c⟩
    rw [hmerge]

/-- Witness for the amended C5 theorem on the concrete fund-less ledger. -/
theorem c5_missing_column_aborts_witness :
    ([Col.fund] ≠ ([] : List Col)) ∧
    (Col.amount ∉ mdbNoFund.cols ∨ ∃ c ∈ [Col.fund], c ∉ mdbNoFund.cols) ∧
    (pic_calc [Col.fund] mdbNoFund = ⟨[], []⟩ ∧
     dis_calc [Col.fund] mdbNoFund = ⟨[], []⟩ ∧
     metrics failSolver [Col.fund] mdbNoFund = Except.error "KeyError") := by
  refine ⟨by decide, Or.inr (by decide), ?_⟩
  exact c5_missing_column_aborts failSolver [Col.fund] mdbNoFund (by decide)
    (Or.inr (by decide))

-- Lemmas supporting the outer-join preservation claim.

/-- Left bindings win over appended bindings. -/
theorem rowGet_append_left {a b : Row} {c : Col} {v : Val}
    (h : rowGet a c = some v) : rowGet (a ++ b) c = some v := by
  rw [rowGet_append, h]

/-- A lookup missing on the left falls through to the appended bindings. -/
theorem rowGet_append_right {a b : Row} {c : Col}
    (h : rowGet a c = none) : rowGet (a ++ b) c = rowGet b c := by
  rw [rowGet_append, h]

/-- A fully-bound key tuple survives appending more bindings. -/
theorem keyOf_append_of_some {cols : List Col} {a b : Row} :
    ∀ {k : List Val}, keyOf cols a = some k → keyOf cols (a ++ b) = some k := by
  induction cols with
  | nil =>
    intro k h
    rw [keyOf] at h ⊢
    exact h
  | cons c cs ih =>
    intro k h
    rw [keyOf] at h ⊢
    cases h1 : rowGet a c with
    | none => rw [h1] at h; cases h
    | some v =>
      cases h2 : keyOf cs a with
      | none => rw [h1, h2] at h; cases h
      | some ks =>
        rw [h1, h2] at h
        rw [rowGet_append_left h1, ih h2]
        exact h

/-- Key of a singleton column list is the lookup of that column. -/
theorem keyOf_singleton {c : Col} {x : Row} {v : Val} :
    keyOf [c] x = some [v] ↔ rowGet x c = some v := by
  rw [keyOf, keyOf]
  cases h : rowGet x c with
  | none => simp
  | some w => simp

/-- A matched left row joined with its unique right partner is in the merge
result. -/
theorem mem_mergeRows_matched {l r : DataFrame} {onCols : List Col}
    {lr rr : Row} (hl : lr ∈ l.rows)
    (hms : filterL (fun x => keyOf onCols x = keyOf onCols lr) r.rows = [rr]) :
    lr ++ rr ∈ mergeRows l r onCols := by
  unfold mergeRows
  apply List.mem_append_left
  apply List.mem_flatMap.mpr
  refine ⟨lr, hl, ?_⟩
  rw [hms]
  simp

/-- An unmatched left row is kept as-is in the merge result. -/
theorem mem_mergeRows_left_unmatched {l r : DataFrame} {onCols : List Col}
    {lr : Row} (hl : lr ∈ l.rows)
    (hms : filterL (fun x => keyOf onCols x = keyOf onCols lr) r.rows = []) :
    lr ∈ mergeRows l r onCols := by
  unfold mergeRows
  apply List.mem_append_left
  apply List.mem_flatMap.mpr
  refine ⟨lr, hl, ?_⟩
  rw [hms]
  simp

/-- An unmatched right row is appended to the merge result. -/
theorem mem_mergeRows_right_unmatched {l r : DataFrame} {onCols : List Col}
    {rr : Row} (hr : rr ∈ r.rows)
    (hnm : ∀ lr ∈ l.rows, keyOf onCols lr ≠ keyOf onCols rr) :
    rr ∈ mergeRows l r onCols := by
  unfold mergeRows
  exact List.mem_append_right _ (mem_filterL.mpr ⟨hr, hnm⟩)

/-- Every row of a merge result is a left row, a joined pair, or a right
row. -/
theorem mem_mergeRows_cases {l r : DataFrame} {onCols : List Col} {x : Row}
    (hx : x ∈ mergeRows l r onCols) :
    (∃ lr ∈ l.rows, x = lr) ∨
    (∃ lr ∈ l.rows, ∃ rr ∈ r.rows, x = lr ++ rr) ∨
    (∃ rr ∈ r.rows, x = rr) := by
  unfold mergeRows at hx
  rcases List.mem_append.mp hx with h | h
  · rcases List.mem_flatMap.mp h with ⟨lr, hlr, hbody⟩
    by_cases he :
        filterL (fun y => keyOf onCols y = keyOf onCols lr) r.rows = []
    · rw [he] at hbody
      simp at hbody
      exact Or.inl ⟨lr, hlr, hbody⟩
    · rw [if_neg he] at hbody
      rcases List.mem_map.mp hbody with ⟨rr, hrr, hx2⟩
      exact Or.inr (Or.inl ⟨lr, hlr, rr, (mem_filterL.mp hrr).1, hx2.symm⟩)
  · exact Or.inr (Or.inr ⟨x, (mem_filterL.mp h).1, rfl⟩)

/-- Characterization of group-by-sum membership. -/
theorem mem_groupbySum_iff {cols : List Col} {outCol : Col}
    {rows : List Row} {x : Row} :
    x ∈ groupbySum cols outCol rows ↔
      ∃ k, (∃ r ∈ rows, keyOf cols r = some k) ∧
        x = mkGroupRow cols k outCol
          (sumAmount (filterL (fun r => keyOf cols r = some k) rows)) := by
  unfold groupbySum
  rw [List.mem_map]
  constructor
  · rintro ⟨k, hk, rfl⟩
    have hmem := (mem_dedupFirst.mp hk).1
    exact ⟨k, List.mem_filterMap.mp hmem, rfl⟩
  · rintro ⟨k, hsrc, rfl⟩
    exact ⟨k, mem_dedupFirst.mpr
      ⟨List.mem_filterMap.mpr hsrc, List.not_mem_nil k⟩, rfl⟩

/-- Keys appearing in a group-by-sum output have full-length tuples. -/
theorem groupbySum_key_length {cols : List Col} {rows : List Row}
    {k : List Val} (h : ∃ r ∈ rows, keyOf cols r = some k) :
    k.length = cols.length := by
  rcases h with ⟨r0, -, h0⟩
  exact keyOf_length h0

/-- Group-by-sum rows are pairwise distinct (their keys are). -/
theorem nodup_groupbySum {cols : List Col} {outCol : Col} (rows : List Row)
    (hnd : cols.Nodup) (hout : outCol ∉ cols) :
    (groupbySum cols outCol rows).Nodup := by
  unfold groupbySum
  apply List.Nodup.map_on ?_ (nodup_dedupFirst [] _)
  intro k1 h1 k2 h2 heq
  have l1 : k1.length = cols.length :=
    groupbySum_key_length (List.mem_filterMap.mp (mem_dedupFirst.mp h1).1)
  have l2 : k2.length = cols.length :=
    groupbySum_key_length (List.mem_filterMap.mp (mem_dedupFirst.mp h2).1)
  have e1 := @keyOf_mkGroupRow cols outCol (sumAmount
    (filterL (fun r => keyOf cols r = some k1) rows)) hnd hout k1 l1
  have e2 := @keyOf_mkGroupRow cols outCol (sumAmount
    (filterL (fun r => keyOf cols r = some k2) rows)) hnd hout k2 l2
  rw [heq, e2] at e1
  cases e1
  rfl

/-- A group-by-sum row is determined by its key. -/
theorem groupbySum_key_determined {cols : List Col} {outCol : Col}
    {rows : List Row} {x : Row} {k : List Val}
    (hnd : cols.Nodup) (hout : outCol ∉ cols)
    (hx : x ∈ groupbySum cols outCol rows) (hkey : keyOf cols x = some k) :
    x = mkGroupRow cols k outCol
      (sumAmount (filterL (fun r => keyOf cols r = some k) rows)) := by
  rcases mem_groupbySum_iff.mp hx with ⟨k2, hsrc, rfl⟩
  have hl := groupbySum_key_length hsrc
  rw [keyOf_mkGroupRow hnd hout hl] at hkey
  cases hkey
  rfl

/-- Under present columns, `_pic_calc` is exactly the group-by-sum of the
flipped contributions partition. -/
theorem pic_calc_of_cols {level : List Col} {mdb : DataFrame}
    (hamt : Col.amount ∈ mdb.cols) (hsub : ∀ c ∈ level, c ∈ mdb.cols) :
    pic_calc level mdb =
      ⟨level ++ [Col.paid_in], groupbySum level Col.paid_in (paidInRows mdb)⟩ := by
  unfold pic_calc
  rw [if_neg (not_not_intro hamt), if_neg ?hc]
  case hc =>
    rintro ⟨c, hc1, hc2⟩
    exact hc2 (hsub c hc1)
  by_cases he : paidInRows mdb = []
  · rw [if_pos he, he]
    rfl
  · rw [if_neg he]

/-- Under present columns, `_dis_calc` is exactly the group-by-sum of the
distributions partition. -/
theorem dis_calc_of_cols {level : List Col} {mdb : DataFrame}
    (hamt : Col.amount ∈ mdb.cols) (hsub : ∀ c ∈ level, c ∈ mdb.cols) :
    dis_calc level mdb =
      ⟨level ++ [Col.distr], groupbySum level Col.distr (posRows mdb)⟩ := by
  unfold dis_calc
  rw [if_neg (not_not_intro hamt), if_neg ?hc]
  case hc =>
    rintro ⟨c, hc1, hc2⟩
    exact hc2 (hsub c hc1)
  by_cases he : posRows mdb = []
  · rw [if_pos he, he]
    rfl
  · rw [if_neg he]

/-- `mergeRows` only reads the row lists of its frame arguments. -/
theorem mergeRows_eq_of_rows {l r l2 r2 : DataFrame} {onCols : List Col}
    (hl : l.rows = l2.rows) (hr : r.rows = r2.rows) :
    mergeRows l r onCols = mergeRows l2 r2 onCols := by
  unfold mergeRows
  rw [hl, hr]

/-- With all required columns present and at least one non-null entity value,
`metrics` succeeds and its rows are the final merged row list. -/
theorem metrics_rows_eval (solver : Solver) (irr_loop : Col)
    (rest : List Col) (mdb : DataFrame)
    (hamt : Col.amount ∈ mdb.cols)
    (hsub : ∀ c ∈ irr_loop :: rest, c ∈ mdb.cols)
    (hasof : Col.asof ∈ mdb.cols)
    (hul : uniqueNonNull irr_loop mdb.rows ≠ []) :
    ∃ df, metrics solver (irr_loop :: rest) mdb = Except.ok df ∧
      df.rows = finalMetricsRows solver irr_loop rest mdb := by
  have hpic := pic_calc_of_cols hamt hsub
  have hdis := dis_calc_of_cols hamt hsub
  have hm1 : mergeOuter (pic_calc (irr_loop :: rest) mdb)
      (dis_calc (irr_loop :: rest) mdb) (irr_loop :: rest) =
      Except.ok ⟨(pic_calc (irr_loop :: rest) mdb).cols ++
        filterL (fun c => c ∉ (pic_calc (irr_loop :: rest) mdb).cols)
          (dis_calc (irr_loop :: rest) mdb).cols,
        mergeRows (pic_calc (irr_loop :: rest) mdb)
          (dis_calc (irr_loop :: rest) mdb) (irr_loop :: rest)⟩ := by
    unfold mergeOuter
    rw [if_neg]
    rintro (⟨c, hc1, hc2⟩ | ⟨c, hc1, hc2⟩)
    · exact hc2 (by rw [hpic]; exact List.mem_append_left _ hc1)
    · exact hc2 (by rw [hdis]; exact List.mem_append_left _ hc1)
  have hirr : irrRowsOf solver irr_loop mdb ≠ [] := by
    unfold irrRowsOf
    intro h
    exact hul (List.map_eq_nil_iff.mp h)
  unfold metrics
  rw [hm1]
  simp only []
  rw [if_neg (not_not_intro (hsub irr_loop (List.mem_cons_self _ _)))]
  rw [if_neg (fun h => h.2 hasof)]
  rw [if_neg hirr]
  unfold mergeOuter
  rw [if_neg ?hmo]
  case hmo =>
    rintro (⟨c, hc1, hc2⟩ | ⟨c, hc1, hc2⟩)
    · rcases List.mem_cons.mp hc1 with rfl | hc1
      · refine hc2 (List.mem_append_left _ ?_)
        refine List.mem_append_left _ ?_
        rw [hpic]
        exact List.mem_append_left _ (List.mem_cons_self _ _)
      · exact absurd hc1 (List.not_mem_nil c)
    · rcases List.mem_cons.mp hc1 with rfl | hc1
      · exact hc2 (List.mem_cons_self _ _)
      · exact absurd hc1 (List.not_mem_nil c)
  refine ⟨_, rfl, ?_⟩
  show mergeRows _ _ [irr_loop] = finalMetricsRows solver irr_loop rest mdb
  unfold finalMetricsRows
  exact mergeRows_eq_of_rows rfl rfl

/-- Key of a cons column list, componentwise. -/
theorem keyOf_cons_some {c : Col} {cs : List Col} {x : Row} {v : Val}
    {vs : List Val} :
    keyOf (c :: cs) x = some (v :: vs) ↔
      rowGet x c = some v ∧ keyOf cs x = some vs := by
  rw [keyOf]
  cases h1 : rowGet x c with
  | none => simp
  | some w =>
    cases h2 : keyOf cs x with
    | none => simp
    | some ks => simp

/-- Filling an already-present column is a no-op. -/
theorem fillColZero_of_some {r : Row} {c : Col} {v : Val}
    (h : rowGet r c = some v) : fillColZero c r = r := by
  unfold fillColZero
  rw [h]

/-- Filling a missing column makes it read zero. -/
theorem rowGet_fillColZero_of_none {r : Row} {c : Col}
    (h : rowGet r c = none) : rowGet (fillColZero c r) c = some (Val.num 0) := by
  unfold fillColZero
  rw [h]
  show rowGet ((c, Val.num 0) :: r) c = some (Val.num 0)
  rw [rowGet, if_pos rfl]

/-- Filling one column does not change another column's lookup. -/
theorem rowGet_fillColZero_ne {r : Row} {c c2 : Col} (h : c ≠ c2) :
    rowGet (fillColZero c r) c2 = rowGet r c2 := by
  unfold fillColZero
  cases h1 : rowGet r c with
  | some v => rfl
  | none => exact rowGet_cons_ne h _ _

/-- Filling a column outside the key columns keeps the key tuple. -/
theorem keyOf_fillColZero {level : List Col} {r : Row} {c : Col}
    (h : c ∉ level) : keyOf level (fillColZero c r) = keyOf level r := by
  unfold fillColZero
  cases h1 : rowGet r c with
  | some v => rfl
  | none => exact keyOf_cons_notmem h _ _

/-- A numeric lookup gives a numeric cell view. -/
theorem getNum_of_rowGet_num {r : Row} {c : Col} {q : ℚ}
    (h : rowGet r c = some (Val.num q)) : getNum r c = some q := by
  unfold getNum
  rw [h]

/-- The MOIC assignment does not change other columns. -/
theorem rowGet_moicAssign_ne {r : Row} {c : Col} (h : c ≠ Col.MOIC) :
    rowGet (moicAssign r) c = rowGet r c := by
  unfold moicAssign
  cases h1 : getNum r Col.paid_in with
  | none => rfl
  | some p =>
    cases h2 : getNum r Col.distr with
    | none => rfl
    | some d => exact rowGet_cons_ne (Ne.symm h) _ _

/-- The MOIC assignment writes `distr / paid_in` when both operands exist. -/
theorem rowGet_moicAssign_MOIC {r : Row} {p d : ℚ}
    (h1 : getNum r Col.paid_in = some p) (h2 : getNum r Col.distr = some d) :
    rowGet (moicAssign r) Col.MOIC = some (Val.num (d / p)) := by
  unfold moicAssign
  rw [h1, h2]
  show rowGet ((Col.MOIC, Val.num (d / p)) :: r) Col.MOIC = _
  rw [rowGet, if_pos rfl]

/-- The MOIC assignment keeps the key tuple when MOIC is not a key column. -/
theorem keyOf_moicAssign {level : List Col} {r : Row}
    (h : Col.MOIC ∉ level) : keyOf level (moicAssign r) = keyOf level r := by
  unfold moicAssign
  cases h1 : getNum r Col.paid_in with
  | none => rfl
  | some p =>
    cases h2 : getNum r Col.distr with
    | none => rfl
    | some d => exact keyOf_cons_notmem h _ _

/-- Zero-fill plus MOIC assignment turns a merged monetary row (where either
side may be missing, reading as 0) into a row with definite `paid_in`,
`distr` and `MOIC` cells, preserving the key and the absent `xirr` cell. -/
theorem moic_process {level : List Col} {M : Row} {k : List Val} {p d : ℚ}
    (hpil : Col.paid_in ∉ level) (hdil : Col.distr ∉ level)
    (hMl : Col.MOIC ∉ level)
    (hkey : keyOf level M = some k)
    (hpaid : rowGet M Col.paid_in = some (Val.num p) ∨
      (rowGet M Col.paid_in = none ∧ p = 0))
    (hdist : rowGet M Col.distr = some (Val.num d) ∨
      (rowGet M Col.distr = none ∧ d = 0))
    (hx : rowGet M Col.xirr = none) :
    keyOf level
        (moicAssign (fillColZero Col.distr (fillColZero Col.paid_in M))) =
      some k ∧
    rowGet (moicAssign (fillColZero Col.distr (fillColZero Col.paid_in M)))
        Col.paid_in = some (Val.num p) ∧
    rowGet (moicAssign (fillColZero Col.distr (fillColZero Col.paid_in M)))
        Col.distr = some (Val.num d) ∧
    rowGet (moicAssign (fillColZero Col.distr (fillColZero Col.paid_in M)))
        Col.MOIC = some (Val.num (d / p)) ∧
    rowGet (moicAssign (fillColZero Col.distr (fillColZero Col.paid_in M)))
        Col.xirr = none := by
  have hF1p : rowGet (fillColZero Col.paid_in M) Col.paid_in =
      some (Val.num p) := by
    rcases hpaid with h | ⟨h, rfl⟩
    · rw [fillColZero_of_some h]
      exact h
    · exact rowGet_fillColZero_of_none h
  have hF1d : rowGet (fillColZero Col.paid_in M) Col.distr =
      rowGet M Col.distr := rowGet_fillColZero_ne (by decide)
  have hF1x : rowGet (fillColZero Col.paid_in M) Col.xirr =
      rowGet M Col.xirr := rowGet_fillColZero_ne (by decide)
  have hF1k : keyOf level (fillColZero Col.paid_in M) = keyOf level M :=
    keyOf_fillColZero hpil
  have hF2d : rowGet (fillColZero Col.distr (fillColZero Col.paid_in M))
      Col.distr = some (Val.num d) := by
    rcases hdist with h | ⟨h, rfl⟩
    · rw [fillColZero_of_some (hF1d.trans h)]
      exact hF1d.trans h
    · exact rowGet_fillColZero_of_none (hF1d.trans h)
  have hF2p : rowGet (fillColZero Col.distr (fillColZero Col.paid_in M))
      Col.paid_in = some (Val.num p) :=
    (rowGet_fillColZero_ne (by decide)).trans hF1p
  have hF2x : rowGet (fillColZero Col.distr (fillColZero Col.paid_in M))
      Col.xirr = none :=
    (rowGet_fillColZero_ne (by decide)).trans (hF1x.trans hx)
  have hF2k : keyOf level (fillColZero Col.distr (fillColZero Col.paid_in M)) =
      some k := (keyOf_fillColZero hdil).trans (hF1k.trans hkey)
  refine ⟨(keyOf_moicAssign hMl).trans hF2k,
    (rowGet_moicAssign_ne (by decide)).trans hF2p,
    (rowGet_moicAssign_ne (by decide)).trans hF2d,
    rowGet_moicAssign_MOIC (getNum_of_rowGet_num hF2p)
      (getNum_of_rowGet_num hF2d),
    (rowGet_moicAssign_ne (by decide)).trans hF2x⟩

/-- Rows of `_pic_calc` always come from the group-by-sum of the flipped
contributions. -/
theorem pic_rows_sub {level : List Col} {mdb : DataFrame} {x : Row}
    (hx : x ∈ (pic_calc level mdb).rows) :
    x ∈ groupbySum level Col.paid_in (paidInRows mdb) := by
  unfold pic_calc at hx
  split_ifs at hx with h1 h2 h3 <;>
    first
      | exact hx
      | exact absurd hx (List.not_mem_nil x)

/-- Rows of `_dis_calc` always come from the group-by-sum of the
distributions. -/
theorem dis_rows_sub {level : List Col} {mdb : DataFrame} {x : Row}
    (hx : x ∈ (dis_calc level mdb).rows) :
    x ∈ groupbySum level Col.distr (posRows mdb) := by
  unfold dis_calc at hx
  split_ifs at hx with h1 h2 h3 <;>
    first
      | exact hx
      | exact absurd hx (List.not_mem_nil x)

/-- No row of the monetary half carries an `xirr` cell. -/
theorem moicRows_no_xirr {level : List Col} {mdb : DataFrame}
    (hxl : Col.xirr ∉ level) :
    ∀ x ∈ moicRows level mdb, rowGet x Col.xirr = none := by
  intro x hx
  unfold moicRows at hx
  rcases List.mem_map.mp hx with ⟨F, hF, rfl⟩
  rcases List.mem_map.mp hF with ⟨M, hM, rfl⟩
  have hMx : rowGet M Col.xirr = none := by
    have hpic : ∀ y ∈ (pic_calc level mdb).rows, rowGet y Col.xirr = none := by
      intro y hy
      rcases mem_groupbySum_iff.mp (pic_rows_sub hy) with ⟨k, hk, rfl⟩
      exact rowGet_mkGroupRow_other hxl (by decide) k
    have hdis : ∀ y ∈ (dis_calc level mdb).rows, rowGet y Col.xirr = none := by
      intro y hy
      rcases mem_groupbySum_iff.mp (dis_rows_sub hy) with ⟨k, hk, rfl⟩
      exact rowGet_mkGroupRow_other hxl (by decide) k
    rcases mem_mergeRows_cases hM with ⟨lr, hlr, heq⟩ | ⟨lr, hlr, rr, hrr, heq⟩ |
      ⟨rr, hrr, heq⟩
    · rw [heq]
      exact hpic lr hlr
    · rw [heq, rowGet_append_right (hpic lr hlr)]
      exact hdis rr hrr
    · rw [heq]
      exact hdis rr hrr
  exact (rowGet_moicAssign_ne (by decide)).trans
    (((rowGet_fillColZero_ne (by decide)).trans
      (rowGet_fillColZero_ne (by decide))).trans hMx)

/-- The entity cell of a per-entity IRR row. -/
theorem irrRow_get_loop {irr_loop : Col} {u : Val} {e : Option ℚ} :
    rowGet (irrRow irr_loop u e) irr_loop = some u := by
  unfold irrRow
  rw [rowGet, if_pos rfl]

/-- The `xirr` cell of a per-entity IRR row. -/
theorem irrRow_get_xirr {irr_loop : Col} {u : Val} {e : Option ℚ}
    (h : irr_loop ≠ Col.xirr) :
    rowGet (irrRow irr_loop u e) Col.xirr = Option.map Val.num e := by
  unfold irrRow
  rw [rowGet_cons_ne h]
  cases e with
  | none => rfl
  | some q =>
    show rowGet [(Col.xirr, Val.num q)] Col.xirr = _
    rw [rowGet, if_pos rfl]
    rfl

/-- The per-entity IRR rows are pairwise distinct. -/
theorem nodup_irrRowsOf (solver : Solver) (irr_loop : Col)
    (mdb : DataFrame) : (irrRowsOf solver irr_loop mdb).Nodup := by
  unfold irrRowsOf
  apply List.Nodup.map_on ?_ (nodup_dedupFirst [] _)
  intro u1 h1 u2 h2 heq
  unfold irrRow at heq
  have hpair := (List.cons.inj heq).1
  exact (Prod.ext_iff.mp hpair).2

/-- For every group key with a qualifying partition row, the merged monetary
frame contains a row carrying the key, the partition sums (a missing side
reads as an absent cell with sum 0), and no MOIC or xirr cell yet. -/
theorem c4_m1_row {level : List Col} {mdb : DataFrame} {k : List Val}
    (hnd : level.Nodup)
    (hamt : Col.amount ∈ mdb.cols) (hsub : ∀ c ∈ level, c ∈ mdb.cols)
    (hpil : Col.paid_in ∉ level) (hdil : Col.distr ∉ level)
    (hMl : Col.MOIC ∉ level) (hxl : Col.xirr ∉ level)
    (hklen : k.length = level.length)
    (hor : (∃ x ∈ paidInRows mdb, keyOf level x = some k) ∨
           (∃ x ∈ posRows mdb, keyOf level x = some k)) :
    ∃ M ∈ mergeRows (pic_calc level mdb) (dis_calc level mdb) level,
      keyOf level M = some k ∧
      (rowGet M Col.paid_in = some (Val.num (picSum level k mdb)) ∨
        (rowGet M Col.paid_in = none ∧ picSum level k mdb = 0)) ∧
      (rowGet M Col.distr = some (Val.num (disSum level k mdb)) ∨
        (rowGet M Col.distr = none ∧ disSum level k mdb = 0)) ∧
      rowGet M Col.xirr = none := by
  have hpicf := pic_calc_of_cols hamt hsub
  have hdisf := dis_calc_of_cols hamt hsub
  have hpicrows : (pic_calc level mdb).rows =
      groupbySum level Col.paid_in (paidInRows mdb) := by rw [hpicf]
  have hdisrows : (dis_calc level mdb).rows =
      groupbySum level Col.distr (posRows mdb) := by rw [hdisf]
  by_cases hkn : ∃ x ∈ paidInRows mdb, keyOf level x = some k
  · -- the key has contribution rows: the pic frame has its group row
    have hP : mkGroupRow level k Col.paid_in (picSum level k mdb) ∈
        (pic_calc level mdb).rows := by
      rw [hpicrows]
      exact mem_groupbySum_iff.mpr ⟨k, hkn, rfl⟩
    have hPkey : keyOf level
        (mkGroupRow level k Col.paid_in (picSum level k mdb)) = some k :=
      keyOf_mkGroupRow hnd hpil hklen
    have hPp : rowGet (mkGroupRow level k Col.paid_in (picSum level k mdb))
        Col.paid_in = some (Val.num (picSum level k mdb)) :=
      rowGet_mkGroupRow_out hpil k
    have hPd : rowGet (mkGroupRow level k Col.paid_in (picSum level k mdb))
        Col.distr = none := rowGet_mkGroupRow_other hdil (by decide) k
    have hPx : rowGet (mkGroupRow level k Col.paid_in (picSum level k mdb))
        Col.xirr = none := rowGet_mkGroupRow_other hxl (by decide) k
    by_cases hkp : ∃ x ∈ posRows mdb, keyOf level x = some k
    · -- both sides present: matched join
      have hD : mkGroupRow level k Col.distr (disSum level k mdb) ∈
          (dis_calc level mdb).rows := by
        rw [hdisrows]
        exact mem_groupbySum_iff.mpr ⟨k, hkp, rfl⟩
      have hDkey : keyOf level
          (mkGroupRow level k Col.distr (disSum level k mdb)) = some k :=
        keyOf_mkGroupRow hnd hdil hklen
      have hms : filterL (fun x => keyOf level x = keyOf level
          (mkGroupRow level k Col.paid_in (picSum level k mdb)))
          (dis_calc level mdb).rows =
          [mkGroupRow level k Col.distr (disSum level k mdb)] := by
        apply filterL_eq_singleton hD (by rw [hDkey, hPkey])
        · intro x hxm hxk
          rw [hPkey] at hxk
          rw [hdisrows] at hxm
          exact groupbySum_key_determined hnd hdil hxm hxk
        · rw [hdisrows]
          exact nodup_groupbySum _ hnd hdil
      refine ⟨_, mem_mergeRows_matched hP hms, keyOf_append_of_some hPkey,
        Or.inl (rowGet_append_left hPp), Or.inl ?_, ?_⟩
      · rw [rowGet_append_right hPd]
        exact rowGet_mkGroupRow_out hdil k
      · rw [rowGet_append_right hPx]
        exact rowGet_mkGroupRow_other hxl (by decide) k
    · -- no distribution rows: left row kept as-is, distr missing, sum 0
      have hms : filterL (fun x => keyOf level x = keyOf level
          (mkGroupRow level k Col.paid_in (picSum level k mdb)))
          (dis_calc level mdb).rows = [] := by
        apply filterL_eq_nil
        intro x hxm hxk
        rw [hPkey] at hxk
        rw [hdisrows] at hxm
        rcases mem_groupbySum_iff.mp hxm with ⟨k2, hk2, rfl⟩
        rw [keyOf_mkGroupRow hnd hdil (groupbySum_key_length hk2)] at hxk
        cases hxk
        exact hkp hk2
      have hzero : disSum level k mdb = 0 := by
        unfold disSum
        rw [filterL_eq_nil]
        · rfl
        · intro x hxm hxk
          exact hkp ⟨x, hxm, hxk⟩
      exact ⟨_, mem_mergeRows_left_unmatched hP hms, hPkey, Or.inl hPp,
        Or.inr ⟨hPd, hzero⟩, hPx⟩
  · -- no contribution rows: the dis group row is appended unmatched
    rcases hor with hkn2 | hkp
    · exact absurd hkn2 hkn
    have hD : mkGroupRow level k Col.distr (disSum level k mdb) ∈
        (dis_calc level mdb).rows := by
      rw [hdisrows]
      exact mem_groupbySum_iff.mpr ⟨k, hkp, rfl⟩
    have hDkey : keyOf level
        (mkGroupRow level k Col.distr (disSum level k mdb)) = some k :=
      keyOf_mkGroupRow hnd hdil hklen
    have hnm : ∀ lr ∈ (pic_calc level mdb).rows, keyOf level lr ≠
        keyOf level (mkGroupRow level k Col.distr (disSum level k mdb)) := by
      intro lr hlr hcontra
      rw [hDkey] at hcontra
      rw [hpicrows] at hlr
      rcases mem_groupbySum_iff.mp hlr with ⟨k2, hk2, rfl⟩
      rw [keyOf_mkGroupRow hnd hpil (groupbySum_key_length hk2)] at hcontra
      cases hcontra
      exact hkn hk2
    have hzero : picSum level k mdb = 0 := by
      unfold picSum
      rw [filterL_eq_nil]
      · rfl
      · intro x hxm hxk
        exact hkn ⟨x, hxm, hxk⟩
    refine ⟨_, mem_mergeRows_right_unmatched hD hnm, hDkey,
      Or.inr ⟨rowGet_mkGroupRow_other hpil (by decide) k, hzero⟩,
      Or.inl (rowGet_mkGroupRow_out hdil k),
      rowGet_mkGroupRow_other hxl (by decide) k⟩

/-- The IRR frame filter against a row carrying entity value `u` selects
exactly that entity's IRR row. -/
theorem irr_filter_singleton (solver : Solver) (irr_loop : Col)
    (mdb : DataFrame) {M2 : Row} {u : Val}
    (hu2 : rowGet M2 irr_loop = some u)
    (huul : u ∈ uniqueNonNull irr_loop mdb.rows) :
    filterL (fun x => keyOf [irr_loop] x = keyOf [irr_loop] M2)
        (irrRowsOf solver irr_loop mdb) =
      [irrRow irr_loop u (entityXirr solver irr_loop u mdb)] := by
  have hU : irrRow irr_loop u (entityXirr solver irr_loop u mdb) ∈
      irrRowsOf solver irr_loop mdb := by
    unfold irrRowsOf
    exact List.mem_map.mpr ⟨u, huul, rfl⟩
  have e2 : keyOf [irr_loop] M2 = some [u] := keyOf_singleton.mpr hu2
  apply filterL_eq_singleton hU ?_ ?_ (nodup_irrRowsOf solver irr_loop mdb)
  · rw [keyOf_singleton.mpr irrRow_get_loop, e2]
  · intro x hxm hxk
    unfold irrRowsOf at hxm
    rcases List.mem_map.mp hxm with ⟨u2, hu2m, rfl⟩
    rw [e2] at hxk
    have := keyOf_singleton.mp hxk
    rw [irrRow_get_loop] at this
    cases this
    rfl

/-- C4: for every ledger with the required columns present, every group value
of a row in the contributions partition (`amount < 0`) or the distributions
partition (`amount > 0`) appears as a row of the `metrics` output carrying
that key, with `paid_in`/`distr` equal to the partition group sums (0 when
that side has no qualifying rows) and `MOIC` their quotient — regardless of
the solver, so a null `xirr` does not remove or alter these cells — and every
entity value gets a row carrying its `xirr` result, even when no monetary
aggregate exists for it. -/
theorem c4_outer_join_preserves (solver : Solver) (irr_loop : Col)
    (rest : List Col) (mdb : DataFrame)
    (hnd : (irr_loop :: rest).Nodup)
    (hres : ∀ c ∈ irr_loop :: rest,
      c ≠ Col.amount ∧ c ≠ Col.paid_in ∧ c ≠ Col.distr ∧ c ≠ Col.MOIC ∧
        c ≠ Col.xirr)
    (hamt : Col.amount ∈ mdb.cols)
    (hsub : ∀ c ∈ irr_loop :: rest, c ∈ mdb.cols)
    (hasof : Col.asof ∈ mdb.cols)
    (hul : uniqueNonNull irr_loop mdb.rows ≠ []) :
    ∃ df, metrics solver (irr_loop :: rest) mdb = Except.ok df ∧
      (∀ r ∈ mdb.rows, ∀ u ktail,
        keyOf (irr_loop :: rest) r = some (u :: ktail) →
        (getNumD r Col.amount 0 < 0 ∨ 0 < getNumD r Col.amount 0) →
        ∃ row ∈ df.rows,
          keyOf (irr_loop :: rest) row = some (u :: ktail) ∧
          rowGet row Col.paid_in =
            some (Val.num (picSum (irr_loop :: rest) (u :: ktail) mdb)) ∧
          rowGet row Col.distr =
            some (Val.num (disSum (irr_loop :: rest) (u :: ktail) mdb)) ∧
          rowGet row Col.MOIC =
            some (Val.num (disSum (irr_loop :: rest) (u :: ktail) mdb /
              picSum (irr_loop :: rest) (u :: ktail) mdb)) ∧
          rowGet row Col.xirr =
            Option.map Val.num (entityXirr solver irr_loop u mdb)) ∧
      (∀ u ∈ uniqueNonNull irr_loop mdb.rows,
        ∃ row ∈ df.rows,
          rowGet row irr_loop = some u ∧
          rowGet row Col.xirr =
            Option.map Val.num (entityXirr solver irr_loop u mdb)) := by
  obtain ⟨df, hdf, hrows⟩ :=
    metrics_rows_eval solver irr_loop rest mdb hamt hsub hasof hul
  have hpil : Col.paid_in ∉ (irr_loop :: rest) :=
    fun hm => (hres _ hm).2.1 rfl
  have hdil : Col.distr ∉ (irr_loop :: rest) :=
    fun hm => (hres _ hm).2.2.1 rfl
  have hMl : Col.MOIC ∉ (irr_loop :: rest) :=
    fun hm => (hres _ hm).2.2.2.1 rfl
  have hxl : Col.xirr ∉ (irr_loop :: rest) :=
    fun hm => (hres _ hm).2.2.2.2 rfl
  have haml : Col.amount ∉ (irr_loop :: rest) :=
    fun hm => (hres _ hm).1 rfl
  have hix : irr_loop ≠ Col.xirr :=
    (hres irr_loop (List.mem_cons_self _ _)).2.2.2.2
  refine ⟨df, hdf, ?_, ?_⟩
  · intro r hr u ktail hkey hsign
    have hklen : (u :: ktail).length = (irr_loop :: rest).length :=
      keyOf_length hkey
    have hor : (∃ x ∈ paidInRows mdb,
          keyOf (irr_loop :: rest) x = some (u :: ktail)) ∨
        (∃ x ∈ posRows mdb,
          keyOf (irr_loop :: rest) x = some (u :: ktail)) := by
      rcases hsign with hneg | hpos
      · left
        refine ⟨(Col.amount, Val.num (getNumD r Col.amount 0 * (-1))) :: r,
          ?_, ?_⟩
        · unfold paidInRows
          exact List.mem_map.mpr ⟨r, mem_filterL.mpr ⟨hr, hneg⟩, rfl⟩
        · rw [keyOf_cons_notmem haml]
          exact hkey
      · right
        exact ⟨r, mem_filterL.mpr ⟨hr, hpos⟩, hkey⟩
    obtain ⟨M, hM, hMkey, hMp, hMd, hMx⟩ :=
      c4_m1_row hnd hamt hsub hpil hdil hMl hxl hklen hor
    obtain ⟨hk2, hp2, hd2, hm2, hx2⟩ :=
      moic_process hpil hdil hMl hMkey hMp hMd hMx
    have hM2 : moicAssign (fillColZero Col.distr (fillColZero Col.paid_in M)) ∈
        moicRows (irr_loop :: rest) mdb := by
      unfold moicRows
      exact List.mem_map.mpr ⟨_, List.mem_map.mpr ⟨M, hM, rfl⟩, rfl⟩
    have hu2 : rowGet
        (moicAssign (fillColZero Col.distr (fillColZero Col.paid_in M)))
        irr_loop = some u := (keyOf_cons_some.mp hk2).1
    have huul : u ∈ uniqueNonNull irr_loop mdb.rows :=
      mem_dedupFirst.mpr ⟨List.mem_filterMap.mpr
        ⟨r, hr, (keyOf_cons_some.mp hkey).1⟩, List.not_mem_nil u⟩
    refine ⟨moicAssign (fillColZero Col.distr (fillColZero Col.paid_in M)) ++
      irrRow irr_loop u (entityXirr solver irr_loop u mdb), ?_, ?_, ?_, ?_,
      ?_, ?_⟩
    · rw [hrows]
      unfold finalMetricsRows
      exact @mem_mergeRows_matched ⟨[], moicRows (irr_loop :: rest) mdb⟩ _ _
        _ _ hM2 (irr_filter_singleton solver irr_loop mdb hu2 huul)
    · exact keyOf_append_of_some hk2
    · exact rowGet_append_left hp2
    · exact rowGet_append_left hd2
    · exact rowGet_append_left hm2
    · rw [rowGet_append_right hx2]
      exact irrRow_get_xirr hix
  · intro u huu
    have hU : irrRow irr_loop u (entityXirr solver irr_loop u mdb) ∈
        irrRowsOf solver irr_loop mdb := by
      unfold irrRowsOf
      exact List.mem_map.mpr ⟨u, huu, rfl⟩
    by_cases hex : ∃ M2 ∈ moicRows (irr_loop :: rest) mdb,
        rowGet M2 irr_loop = some u
    · obtain ⟨M2, hM2, hM2u⟩ := hex
      refine ⟨M2 ++ irrRow irr_loop u (entityXirr solver irr_loop u mdb),
        ?_, ?_, ?_⟩
      · rw [hrows]
        unfold finalMetricsRows
        exact @mem_mergeRows_matched ⟨[], moicRows (irr_loop :: rest) mdb⟩
          _ _ _ _ hM2
          (irr_filter_singleton solver irr_loop mdb hM2u huu)
      · exact rowGet_append_left hM2u
      · rw [rowGet_append_right (moicRows_no_xirr hxl M2 hM2)]
        exact irrRow_get_xirr hix
    · have hnm : ∀ lr ∈ (⟨[], moicRows (irr_loop :: rest) mdb⟩ :
          DataFrame).rows,
          keyOf [irr_loop] lr ≠ keyOf [irr_loop]
            (irrRow irr_loop u (entityXirr solver irr_loop u mdb)) := by
        intro lr hlr hcontra
        rw [keyOf_singleton.mpr irrRow_get_loop] at hcontra
        exact hex ⟨lr, hlr, keyOf_singleton.mp hcontra⟩
      refine ⟨irrRow irr_loop u (entityXirr solver irr_loop u mdb), ?_,
        irrRow_get_loop, irrRow_get_xirr hix⟩
      rw [hrows]
      unfold finalMetricsRows
      exact mem_mergeRows_right_unmatched hU hnm

/-- Witness for C4 on the concrete scenario ledger with a failing solver: the
null `xirr` does not suppress the monetary row. -/
theorem c4_outer_join_preserves_witness :
    ([Col.entity_id, Col.deal_id, Col.fund].Nodup) ∧
    (Col.amount ∈ ledgerC3.cols) ∧ (Col.asof ∈ ledgerC3.cols) ∧
    (uniqueNonNull Col.entity_id ledgerC3.rows ≠ []) ∧
    ∃ df, metrics failSolver [Col.entity_id, Col.deal_id, Col.fund] ledgerC3 =
        Except.ok df ∧
      (∀ r ∈ ledgerC3.rows, ∀ u ktail,
        keyOf [Col.entity_id, Col.deal_id, Col.fund] r = some (u :: ktail) →
        (getNumD r Col.amount 0 < 0 ∨ 0 < getNumD r Col.amount 0) →
        ∃ row ∈ df.rows,
          keyOf [Col.entity_id, Col.deal_id, Col.fund] row =
            some (u :: ktail) ∧
          rowGet row Col.paid_in = some (Val.num
            (picSum [Col.entity_id, Col.deal_id, Col.fund] (u :: ktail)
              ledgerC3)) ∧
          rowGet row Col.distr = some (Val.num
            (disSum [Col.entity_id, Col.deal_id, Col.fund] (u :: ktail)
              ledgerC3)) ∧
          rowGet row Col.MOIC = some (Val.num
            (disSum [Col.entity_id, Col.deal_id, Col.fund] (u :: ktail)
              ledgerC3 /
             picSum [Col.entity_id, Col.deal_id, Col.fund] (u :: ktail)
              ledgerC3)) ∧
          rowGet row Col.xirr =
            Option.map Val.num (entityXirr failSolver Col.entity_id u
              ledgerC3)) ∧
      (∀ u ∈ uniqueNonNull Col.entity_id ledgerC3.rows,
        ∃ row ∈ df.rows,
          rowGet row Col.entity_id = some u ∧
          rowGet row Col.xirr =
            Option.map Val.num (entityXirr failSolver Col.entity_id u
              ledgerC3)) := by
  refine ⟨by decide, by decide, by decide, by decide, ?_⟩
  exact c4_outer_join_preserves failSolver Col.entity_id
    [Col.deal_id, Col.fund] ledgerC3 (by decide) (by decide) (by decide)
    (by decide) (by decide) (by decide)

/-- C7: every accrual row emits exactly two financing cashflow rows, both
keyed to the payment date: an `interest` row with
`amount = finance_portion × all_in_rate / 12` (positive when principal and
rate are positive) and an `undrawn_fee` row with
`amount = −(undrawn × undrawn_fee_rate / 12)` (negative when the balance and
fee rate are positive). -/
theorem c7_two_fee_rows (rows : List FundCurveRow) :
    (calc_monthly_fee rows).length = 2 * rows.length ∧
    ∀ i (hi : i < rows.length)
      (h1 : i < (calc_monthly_fee rows).length)
      (h2 : rows.length + i < (calc_monthly_fee rows).length),
      (calc_monthly_fee rows).get ⟨i, h1⟩ =
        { payment_date := (rows.get ⟨i, hi⟩).payment_date,
          cashflow_type := "interest",
          fund := (rows.get ⟨i, hi⟩).fund,
          amount := (rows.get ⟨i, hi⟩).all_in_rate.map
            (fun a => (rows.get ⟨i, hi⟩).finance_portion * a / 12) } ∧
      (calc_monthly_fee rows).get ⟨rows.length + i, h2⟩ =
        { payment_date := (rows.get ⟨i, hi⟩).payment_date,
          cashflow_type := "undrawn_fee",
          fund := (rows.get ⟨i, hi⟩).fund,
          amount := some ((rows.get ⟨i, hi⟩).undrawn *
            (rows.get ⟨i, hi⟩).undrawn_fee_rate / 12 * (-1)) } ∧
      (∀ a, (rows.get ⟨i, hi⟩).all_in_rate = some a →
        0 < (rows.get ⟨i, hi⟩).finance_portion → 0 < a →
        ∃ q, ((calc_monthly_fee rows).get ⟨i, h1⟩).amount = some q ∧
          0 < q) ∧
      (0 < (rows.get ⟨i, hi⟩).undrawn →
        0 < (rows.get ⟨i, hi⟩).undrawn_fee_rate →
        ∃ q, ((calc_monthly_fee rows).get ⟨rows.length + i, h2⟩).amount =
          some q ∧ q < 0) := by
  have hlen : (calc_monthly_fee rows).length = 2 * rows.length := by
    unfold calc_monthly_fee
    rw [List.length_append, List.length_map, List.length_map]
    ring
  refine ⟨hlen, ?_⟩
  intro i hi h1 h2
  have hmaplen : i < (rows.map (fun r =>
      ({ payment_date := r.payment_date, cashflow_type := "interest",
         fund := r.fund,
         amount := r.all_in_rate.map
           (fun a => r.finance_portion * a / 12) } : FeeRow))).length := by
    rw [List.length_map]
    exact hi
  have hget1 : (calc_monthly_fee rows).get ⟨i, h1⟩ =
      { payment_date := (rows.get ⟨i, hi⟩).payment_date,
        cashflow_type := "interest",
        fund := (rows.get ⟨i, hi⟩).fund,
        amount := (rows.get ⟨i, hi⟩).all_in_rate.map
          (fun a => (rows.get ⟨i, hi⟩).finance_portion * a / 12) } := by
    show (calc_monthly_fee rows)[i] = _
    unfold calc_monthly_fee
    rw [List.getElem_append]
    rw [dif_pos hmaplen]
    simp
  have hget2 : (calc_monthly_fee rows).get ⟨rows.length + i, h2⟩ =
      { payment_date := (rows.get ⟨i, hi⟩).payment_date,
        cashflow_type := "undrawn_fee",
        fund := (rows.get ⟨i, hi⟩).fund,
        amount := some ((rows.get ⟨i, hi⟩).undrawn *
          (rows.get ⟨i, hi⟩).undrawn_fee_rate / 12 * (-1)) } := by
    show (calc_monthly_fee rows)[rows.length + i] = _
    unfold calc_monthly_fee
    rw [List.getElem_append]
    rw [dif_neg (by rw [List.length_map]; omega)]
    simp [List.length_map]
  refine ⟨hget1, hget2, ?_, ?_⟩
  · intro a ha hfp hra
    refine ⟨(rows.get ⟨i, hi⟩).finance_portion * a / 12, ?_, ?_⟩
    · rw [hget1]
      show Option.map _ _ = _
      rw [ha]
      rfl
    · positivity
  · intro hu hf
    refine ⟨(rows.get ⟨i, hi⟩).undrawn *
      (rows.get ⟨i, hi⟩).undrawn_fee_rate / 12 * (-1), ?_, ?_⟩
    · rw [hget2]
    · have hq : 0 < (rows.get ⟨i, hi⟩).undrawn *
          (rows.get ⟨i, hi⟩).undrawn_fee_rate / 12 := by positivity
      nlinarith

/-- A concrete accrual row for the C7 witness. -/
def c7row : FundCurveRow :=
  { fund := "F1", con_date := ⟨636, 1⟩, exit_date := ⟨648, 1⟩,
    month_end := ⟨636, 31⟩, payment_date := ⟨637, 15⟩,
    cost_of_funds_curve := "SOFR", rate := some (5/100),
    all_in_rate := some (7/100), fund_spread_bps_lev := 200,
    fund_undrawn_fee_bps := 50, undrawn_fee_rate := 1/200,
    finance_portion := 800, undrawn := 1000 }

/-- Witness for C7 on one concrete accrual row. -/
theorem c7_two_fee_rows_witness :
    ∃ (hi : 0 < ([c7row]).length)
      (h1 : 0 < (calc_monthly_fee [c7row]).length)
      (h2 : ([c7row]).length + 0 < (calc_monthly_fee [c7row]).length),
      (calc_monthly_fee [c7row]).get ⟨0, h1⟩ =
        { payment_date := ([c7row].get ⟨0, hi⟩).payment_date,
          cashflow_type := "interest",
          fund := ([c7row].get ⟨0, hi⟩).fund,
          amount := ([c7row].get ⟨0, hi⟩).all_in_rate.map
            (fun a => ([c7row].get ⟨0, hi⟩).finance_portion * a / 12) } ∧
      ((calc_monthly_fee [c7row]).get ⟨0, h1⟩).amount = some (14/3) := by
  refine ⟨by decide, by decide, by decide, ?_, ?_⟩
  · exact ((c7_two_fee_rows [c7row]).2 0 (by decide) (by decide)
      (by decide)).1
  · rw [((c7_two_fee_rows [c7row]).2 0 (by decide) (by decide)
      (by decide)).1]
    simp [c7row]
    norm_num

/-- Filtering a mapped list by a predicate the map does not affect. -/
theorem filterL_map_invariant {f : α → α} {p : α → Prop} [DecidablePred p]
    (hp : ∀ x, p (f x) ↔ p x) :
    ∀ l : List α, filterL p (l.map f) = (filterL p l).map f := by
  intro l
  induction l with
  | nil => rfl
  | cons x xs ih =>
    by_cases hx : p x
    · rw [List.map_cons, filterL, if_pos ((hp x).mpr hx), filterL, if_pos hx,
        List.map_cons, ih]
    · rw [List.map_cons, filterL, if_neg (fun h => hx ((hp x).mp h)), filterL,
        if_neg hx, ih]

/-- Mapping over a flat-map pushes inside. -/
theorem map_flatMap_eq {l : List α} {f : α → List β} {g : β → γ} :
    (l.flatMap f).map g = l.flatMap (fun x => (f x).map g) := by
  induction l with
  | nil => rfl
  | cons x xs ih => simp [List.flatMap_cons, List.map_append, ih]

/-- The row update a uniform shock S induces on a schedule row. -/
def shockFCRow (S : ℚ) (r : FundCurveRow) : FundCurveRow :=
  { r with rate := r.rate.map (fun q => q + S),
           all_in_rate := r.all_in_rate.map (fun q => q + S) }

/-- Shocking the curve shifts every matched rate by S and keeps the match
structure. -/
theorem joinRates_shock (S : ℚ) (curveName : String) (me : Date)
    (curvedb : List CurvePoint) :
    joinRates curveName me (shockCurve S curvedb) =
      (joinRates curveName me curvedb).map (Option.map (fun q => q + S)) := by
  unfold joinRates shockCurve
  rw [@filterL_map_invariant CurvePoint
    (fun c => (⟨c.asof, c.curve, c.rate + S⟩ : CurvePoint))
    (fun c => c.curve = curveName ∧ c.asof = me) _ (fun c => Iff.rfl) curvedb]
  by_cases hempty : filterL (fun c => c.curve = curveName ∧ c.asof = me)
      curvedb = []
  · rw [hempty]
    simp
  · rw [if_neg (by simpa using hempty), if_neg hempty]
    simp [List.map_map, Function.comp]

/-- Building a row from a shifted rate is shifting the built row. -/
theorem buildCurveRow_shock (S : ℚ) (r : FundInfoRow) (me : Date)
    (rate : Option ℚ) :
    buildCurveRow r me (Option.map (fun q => q + S) rate) =
      shockFCRow S (buildCurveRow r me rate) := by
  unfold buildCurveRow shockFCRow
  cases rate with
  | none => rfl
  | some q =>
    simp
    ring

/-- C8: running the schedule generator on a uniformly shocked curve yields a
row-for-row identical schedule except that `rate` and `all_in_rate` are
shifted by exactly S on priced rows (null rows stay null); in particular
every `all_in_rate` differs by exactly S in the `Option.map` sense and every
`undrawn_fee_rate` is unchanged. -/
theorem c8_shock_equivariance (S : ℚ) (fl : List FundInfoRow)
    (curvedb : List CurvePoint) :
    expand_and_join_curve fl (shockCurve S curvedb) =
      (expand_and_join_curve fl curvedb).map (shockFCRow S) ∧
    (expand_and_join_curve fl (shockCurve S curvedb)).map
        FundCurveRow.undrawn_fee_rate =
      (expand_and_join_curve fl curvedb).map FundCurveRow.undrawn_fee_rate ∧
    (expand_and_join_curve fl (shockCurve S curvedb)).map
        FundCurveRow.all_in_rate =
      ((expand_and_join_curve fl curvedb).map FundCurveRow.all_in_rate).map
        (Option.map (fun q => q + S)) := by
  have key : expand_and_join_curve fl (shockCurve S curvedb) =
      (expand_and_join_curve fl curvedb).map (shockFCRow S) := by
    unfold expand_and_join_curve
    rw [map_flatMap_eq]
    refine congrArg _ (funext fun r => ?_)
    have hexp : (monthEndRange (r.con_date.mi - 1) (r.exit_date.mi)).flatMap
        (fun me => (joinRates r.cost_of_funds_curve me
          (shockCurve S curvedb)).map (buildCurveRow r me)) =
        ((monthEndRange (r.con_date.mi - 1) (r.exit_date.mi)).flatMap
          (fun me => (joinRates r.cost_of_funds_curve me curvedb).map
            (buildCurveRow r me))).map (shockFCRow S) := by
      rw [map_flatMap_eq]
      refine congrArg _ (funext fun me => ?_)
      rw [joinRates_shock, List.map_map, List.map_map]
      exact List.map_congr_left (fun rate _ => buildCurveRow_shock S r me rate)
    rw [hexp]
    exact @filterL_map_invariant FundCurveRow (shockFCRow S)
      (fun row => dateLe r.con_date row.month_end ∧
        dateLe row.month_end r.exit_date) _ (fun x => Iff.rfl) _
  refine ⟨key, ?_, ?_⟩
  · rw [key, List.map_map]
    rfl
  · rw [key, List.map_map, List.map_map]
    rfl

-- The first-draw undrawn logic of `return_fund_info` (C6).

/-- `applyUndrawn` keeps the list length. -/
theorem applyUndrawn_length : ∀ (seen : List String)
    (rows : List FundInfoRow),
    (applyUndrawn seen rows).length = rows.length
  | _, [] => rfl
  | seen, r :: rest => by
    by_cases hr : r.fund ∈ seen
    · rw [applyUndrawn, if_pos hr, List.length_cons, List.length_cons,
        applyUndrawn_length seen rest]
    · rw [applyUndrawn, if_neg hr, List.length_cons, List.length_cons,
        applyUndrawn_length (r.fund :: seen) rest]

/-- `applyUndrawn` keeps the fund column. -/
theorem applyUndrawn_map_fund : ∀ (seen : List String)
    (rows : List FundInfoRow),
    (applyUndrawn seen rows).map FundInfoRow.fund =
      rows.map FundInfoRow.fund
  | _, [] => rfl
  | seen, r :: rest => by
    by_cases hr : r.fund ∈ seen
    · rw [applyUndrawn, if_pos hr, List.map_cons, List.map_cons,
        applyUndrawn_map_fund seen rest]
    · rw [applyUndrawn, if_neg hr, List.map_cons, List.map_cons,
        applyUndrawn_map_fund (r.fund :: seen) rest]

/-- Unfolding equation of `applyUndrawn` on a cons cell. -/
theorem applyUndrawn_cons (seen : List String) (r : FundInfoRow)
    (rest : List FundInfoRow) :
    applyUndrawn seen (r :: rest) =
      if r.fund ∈ seen then
        { r with undrawn := r.finance_portion } :: applyUndrawn seen rest
      else
        { r with undrawn := r.credit_line + r.finance_portion } ::
          applyUndrawn (r.fund :: seen) rest := rfl

/-- Pointwise description of `applyUndrawn`: each output row is the input row
with `undrawn` set to the full capacity exactly when its fund is neither
already marked seen nor the fund of an earlier row. -/
theorem applyUndrawn_get : ∀ (seen : List String)
    (rows : List FundInfoRow) (i : ℕ) (h : i < rows.length)
    (h2 : i < (applyUndrawn seen rows).length),
    (applyUndrawn seen rows).get ⟨i, h2⟩ =
      { rows.get ⟨i, h⟩ with undrawn :=
          if (rows.get ⟨i, h⟩).fund ∈ seen ∨
             (rows.get ⟨i, h⟩).fund ∈ (rows.take i).map FundInfoRow.fund
          then (rows.get ⟨i, h⟩).finance_portion
          else (rows.get ⟨i, h⟩).credit_line +
            (rows.get ⟨i, h⟩).finance_portion }
  | _, [], i, h, _ => absurd h (by simp)
  | seen, r :: rest, 0, h, h2 => by
    by_cases hr : r.fund ∈ seen
    · have he : applyUndrawn seen (r :: rest) =
          { r with undrawn := r.finance_portion } :: applyUndrawn seen rest :=
        by rw [applyUndrawn_cons, if_pos hr]
      rw [List.get_of_eq he]
      simp [hr]
    · have he : applyUndrawn seen (r :: rest) =
          { r with undrawn := r.credit_line + r.finance_portion } ::
            applyUndrawn (r.fund :: seen) rest :=
        by rw [applyUndrawn_cons, if_neg hr]
      rw [List.get_of_eq he]
      simp [hr]
  | seen, r :: rest, i + 1, h, h2 => by
    have h3 : i < rest.length := by simpa using h
    by_cases hr : r.fund ∈ seen
    · have he : applyUndrawn seen (r :: rest) =
          { r with undrawn := r.finance_portion } :: applyUndrawn seen rest :=
        by rw [applyUndrawn_cons, if_pos hr]
      have h4 : i < (applyUndrawn seen rest).length := by
        rw [applyUndrawn_length seen rest]
        exact h3
      rw [List.get_of_eq he, List.get_cons_succ,
        applyUndrawn_get seen rest i h3 h4]
      simp only [List.get_cons_succ, List.take_succ_cons, List.map_cons,
        List.mem_cons]
      have hiff : ((rest.get ⟨i, h3⟩).fund ∈ seen ∨
          (rest.get ⟨i, h3⟩).fund ∈ (rest.take i).map FundInfoRow.fund) ↔
          ((rest.get ⟨i, h3⟩).fund ∈ seen ∨
           ((rest.get ⟨i, h3⟩).fund = r.fund ∨
            (rest.get ⟨i, h3⟩).fund ∈ (rest.take i).map FundInfoRow.fund)) := by
        constructor
        · intro hc
          rcases hc with hs | hm
          · exact Or.inl hs
          · exact Or.inr (Or.inr hm)
        · intro hc
          rcases hc with hs | heq | hm
          · exact Or.inl hs
          · rw [heq]
            exact Or.inl hr
          · exact Or.inr hm
      rw [if_congr hiff rfl rfl]
    · have he : applyUndrawn seen (r :: rest) =
          { r with undrawn := r.credit_line + r.finance_portion } ::
            applyUndrawn (r.fund :: seen) rest :=
        by rw [applyUndrawn_cons, if_neg hr]
      have h4 : i < (applyUndrawn (r.fund :: seen) rest).length := by
        rw [applyUndrawn_length (r.fund :: seen) rest]
        exact h3
      rw [List.get_of_eq he, List.get_cons_succ,
        applyUndrawn_get (r.fund :: seen) rest i h3 h4]
      simp only [List.get_cons_succ, List.take_succ_cons, List.map_cons,
        List.mem_cons]
      have hiff : (((rest.get ⟨i, h3⟩).fund = r.fund ∨
          (rest.get ⟨i, h3⟩).fund ∈ seen) ∨
          (rest.get ⟨i, h3⟩).fund ∈ (rest.take i).map FundInfoRow.fund) ↔
          ((rest.get ⟨i, h3⟩).fund ∈ seen ∨
           ((rest.get ⟨i, h3⟩).fund = r.fund ∨
            (rest.get ⟨i, h3⟩).fund ∈ (rest.take i).map FundInfoRow.fund)) := by
        tauto
      rw [if_congr hiff rfl rfl]

/-- Membership in a sorted insertion. -/
theorem mem_insertSorted (le : α → α → Prop) [DecidableRel le] (x a : α) :
    ∀ l : List α, a ∈ insertSorted le x l ↔ a = x ∨ a ∈ l
  | [] => by simp [insertSorted]
  | y :: ys => by
    rw [insertSorted]
    by_cases hxy : le x y
    · rw [if_pos hxy]
      simp
    · rw [if_neg hxy]
      simp only [List.mem_cons, mem_insertSorted le x a ys]
      tauto

/-- Sorted insertion preserves sortedness for a total transitive order. -/
theorem pairwise_insertSorted (le : α → α → Prop) [DecidableRel le]
    (htot : ∀ a b, le a b ∨ le b a)
    (htrans : ∀ a b c, le a b → le b c → le a c) (x : α) :
    ∀ l : List α, l.Pairwise le → (insertSorted le x l).Pairwise le
  | [], _ => by simp [insertSorted]
  | y :: ys, hp => by
    rcases List.pairwise_cons.mp hp with ⟨hy, hys⟩
    rw [insertSorted]
    by_cases hxy : le x y
    · rw [if_pos hxy]
      refine List.pairwise_cons.mpr ⟨?_, hp⟩
      intro z hz
      rcases List.mem_cons.mp hz with rfl | hz2
      · exact hxy
      · exact htrans x y z hxy (hy z hz2)
    · rw [if_neg hxy]
      refine List.pairwise_cons.mpr
        ⟨?_, pairwise_insertSorted le htot htrans x ys hys⟩
      intro z hz
      rcases (mem_insertSorted le x z ys).mp hz with rfl | hz2
      · exact (htot z y).resolve_left hxy
      · exact hy z hz2

/-- Insertion sort sorts, for a total transitive order. -/
theorem pairwise_sortByLe (le : α → α → Prop) [DecidableRel le]
    (htot : ∀ a b, le a b ∨ le b a)
    (htrans : ∀ a b c, le a b → le b c → le a c) :
    ∀ l : List α, (sortByLe le l).Pairwise le
  | [] => List.Pairwise.nil
  | x :: xs => pairwise_insertSorted le htot htrans x (sortByLe le xs)
      (pairwise_sortByLe le htot htrans xs)

/-- The pandas group-key order is total. -/
theorem fundKeyLe_total (a b : String × Date × Date) :
    fundKeyLe a b ∨ fundKeyLe b a := by
  obtain ⟨a1, ⟨am, ad⟩, ⟨aem, aed⟩⟩ := a
  obtain ⟨b1, ⟨bm, bd⟩, ⟨bem, bed⟩⟩ := b
  unfold fundKeyLe dateLt dateLe
  simp only
  rcases lt_trichotomy a1 b1 with h | h | h
  · exact Or.inl (Or.inl h)
  · subst h
    by_cases hd : am < bm ∨ (am = bm ∧ (ad < bd ∨ (ad = bd ∧
        (aem < bem ∨ (aem = bem ∧ aed ≤ bed)))))
    · refine Or.inl (Or.inr ⟨rfl, ?_⟩)
      simp only [Date.mk.injEq]
      omega
    · refine Or.inr (Or.inr ⟨rfl, ?_⟩)
      simp only [Date.mk.injEq]
      omega
  · exact Or.inr (Or.inl h)

/-- The pandas group-key order is transitive. -/
theorem fundKeyLe_trans (a b c : String × Date × Date)
    (hab : fundKeyLe a b) (hbc : fundKeyLe b c) : fundKeyLe a c := by
  obtain ⟨a1, ⟨am, ad⟩, ⟨aem, aed⟩⟩ := a
  obtain ⟨b1, ⟨bm, bd⟩, ⟨bem, bed⟩⟩ := b
  obtain ⟨c1, ⟨cm, cd⟩, ⟨cem, ced⟩⟩ := c
  unfold fundKeyLe dateLt dateLe at hab hbc ⊢
  simp only [Date.mk.injEq] at hab hbc ⊢
  rcases hab with h1 | ⟨he1, h1⟩ <;> rcases hbc with h2 | ⟨he2, h2⟩
  · exact Or.inl (lt_trans h1 h2)
  · exact Or.inl (he2 ▸ h1)
  · exact Or.inl (he1 ▸ h2)
  · refine Or.inr ⟨he1.trans he2, ?_⟩
    omega

/-- `dateLe` is reflexive. -/
theorem dateLe_refl (x : Date) : dateLe x x :=
  Or.inr ⟨rfl, le_refl _⟩

/-- Strict chronological order implies the weak one. -/
theorem dateLt_le (x y : Date) (h : dateLt x y) : dateLe x y := by
  unfold dateLt dateLe at *
  omega

/-- On keys of the same fund, the group-key order is chronological on the
draw date. -/
theorem fundKeyLe_same_fund (a b : String × Date × Date)
    (hle : fundKeyLe a b) (hf : a.1 = b.1) : dateLe a.2.1 b.2.1 := by
  rcases hle with h | ⟨_, h | ⟨he, _⟩⟩
  · rw [hf] at h
    exact absurd h (lt_irrefl _)
  · exact dateLt_le _ _ h
  · rw [he]
    exact dateLe_refl _

/-- The undrawn and ordering facts of C6, over any row list whose fund and
draw-date columns come from a key list sorted in the pandas group-key
order. -/
theorem undrawn_spec_of_sorted (keys : List (String × Date × Date))
    (RS : List FundInfoRow) (hkeys : keys.Pairwise fundKeyLe)
    (hRS : RS.map (fun r => (r.fund, r.con_date)) =
      keys.map (fun k => (k.1, k.2.1)))
    (i : ℕ) (h : i < (applyUndrawn [] RS).length) :
    (((applyUndrawn [] RS).get ⟨i, h⟩).fund ∈
        ((applyUndrawn [] RS).take i).map FundInfoRow.fund →
      ((applyUndrawn [] RS).get ⟨i, h⟩).undrawn =
        ((applyUndrawn [] RS).get ⟨i, h⟩).finance_portion) ∧
    (((applyUndrawn [] RS).get ⟨i, h⟩).fund ∉
        ((applyUndrawn [] RS).take i).map FundInfoRow.fund →
      ((applyUndrawn [] RS).get ⟨i, h⟩).undrawn =
        ((applyUndrawn [] RS).get ⟨i, h⟩).credit_line +
          ((applyUndrawn [] RS).get ⟨i, h⟩).finance_portion) ∧
    (∀ r ∈ (applyUndrawn [] RS).take i,
      r.fund = ((applyUndrawn [] RS).get ⟨i, h⟩).fund →
      dateLe r.con_date ((applyUndrawn [] RS).get ⟨i, h⟩).con_date) := by
  have hi : i < RS.length := by
    rw [← applyUndrawn_length ([] : List String) RS]
    exact h
  have hget := applyUndrawn_get [] RS i hi h
  simp only [List.mem_nil_iff, false_or] at hget
  have hfund : ((applyUndrawn [] RS).get ⟨i, h⟩).fund =
      (RS.get ⟨i, hi⟩).fund := by rw [hget]
  have hcon : ((applyUndrawn [] RS).get ⟨i, h⟩).con_date =
      (RS.get ⟨i, hi⟩).con_date := by rw [hget]
  have hfp : ((applyUndrawn [] RS).get ⟨i, h⟩).finance_portion =
      (RS.get ⟨i, hi⟩).finance_portion := by rw [hget]
  have hcl : ((applyUndrawn [] RS).get ⟨i, h⟩).credit_line =
      (RS.get ⟨i, hi⟩).credit_line := by rw [hget]
  have hu : ((applyUndrawn [] RS).get ⟨i, h⟩).undrawn =
      if (RS.get ⟨i, hi⟩).fund ∈ (RS.take i).map FundInfoRow.fund
      then (RS.get ⟨i, hi⟩).finance_portion
      else (RS.get ⟨i, hi⟩).credit_line +
        (RS.get ⟨i, hi⟩).finance_portion := by rw [hget]
  have htake : ((applyUndrawn [] RS).take i).map FundInfoRow.fund =
      (RS.take i).map FundInfoRow.fund := by
    simp only [List.map_take]
    rw [applyUndrawn_map_fund]
  refine ⟨?_, ?_, ?_⟩
  · intro hmem
    rw [hfund, htake] at hmem
    rw [hu, if_pos hmem, hfp]
  · intro hmem
    rw [hfund, htake] at hmem
    rw [hu, if_neg hmem, hfp, hcl]
  · intro r hr hrf
    rcases List.mem_iff_get.mp hr with ⟨⟨j, hj⟩, hrj⟩
    have hjlt : j < i := by
      have := hj
      rw [List.length_take] at this
      omega
    have hjL : j < (applyUndrawn [] RS).length := by omega
    have hjR : j < RS.length := by
      rw [← applyUndrawn_length ([] : List String) RS]
      exact hjL
    have hrj2 : r = (applyUndrawn [] RS).get ⟨j, hjL⟩ := by
      rw [← hrj, List.get_eq_getElem, List.get_eq_getElem, List.getElem_take]
    have hgj := applyUndrawn_get [] RS j hjR hjL
    have hrfund : r.fund = (RS.get ⟨j, hjR⟩).fund := by
      rw [hrj2, hgj]
    have hrcon : r.con_date = (RS.get ⟨j, hjR⟩).con_date := by
      rw [hrj2, hgj]
    -- lengths agree between RS and keys
    have hlen : RS.length = keys.length := by
      have := congrArg List.length hRS
      simpa using this
    have hik : i < keys.length := by omega
    have hjk : j < keys.length := by omega
    -- the fund / con_date columns of RS are the key components
    have hcols : ∀ (m : ℕ) (hm : m < RS.length) (hmk : m < keys.length),
        (RS.get ⟨m, hm⟩).fund = (keys.get ⟨m, hmk⟩).1 ∧
        (RS.get ⟨m, hm⟩).con_date = (keys.get ⟨m, hmk⟩).2.1 := by
      intro m hm hmk
      have hmm : ((RS.map (fun r => (r.fund, r.con_date))).get
          ⟨m, by simpa using hm⟩) =
          ((keys.map (fun k => (k.1, k.2.1))).get ⟨m, by simpa using hmk⟩) :=
        List.get_of_eq hRS _
      rw [List.get_eq_getElem, List.get_eq_getElem, List.getElem_map,
        List.getElem_map] at hmm
      exact ⟨congrArg Prod.fst hmm, congrArg Prod.snd hmm⟩
    rcases hcols i hi hik with ⟨hifund, hicon⟩
    rcases hcols j hjR hjk with ⟨hjfund, hjcon⟩
    -- sortedness at indices j < i
    have hle : fundKeyLe (keys.get ⟨j, hjk⟩) (keys.get ⟨i, hik⟩) :=
      List.pairwise_iff_get.mp hkeys ⟨j, hjk⟩ ⟨i, hik⟩ hjlt
    have hfeq : (keys.get ⟨j, hjk⟩).1 = (keys.get ⟨i, hik⟩).1 := by
      rw [← hjfund, ← hifund, ← hrfund, ← hfund]
      exact hrf
    have hdle := fundKeyLe_same_fund _ _ hle hfeq
    rw [hrcon, hjcon, hcon, hicon]
    exact hdle

/-- C6: in the fund-level aggregation, for every output draw row, (a) if an
earlier row of the same fund exists, the row's undrawn balance is exactly
its own financed principal, (b) if no earlier row has the same fund — the
row is the fund's earliest draw — the undrawn balance is the credit line
plus the financed principal, and (c) every earlier row of the same fund has
a draw date at most this row's, so earlier in the list is chronologically
earlier within each fund. -/
theorem c6_first_draw_full_capacity (db : List FundRow) (i : ℕ)
    (h : i < (return_fund_info db).length) :
    ((((return_fund_info db).get ⟨i, h⟩).fund ∈
        ((return_fund_info db).take i).map FundInfoRow.fund →
      ((return_fund_info db).get ⟨i, h⟩).undrawn =
        ((return_fund_info db).get ⟨i, h⟩).finance_portion) ∧
     (((return_fund_info db).get ⟨i, h⟩).fund ∉
        ((return_fund_info db).take i).map FundInfoRow.fund →
      ((return_fund_info db).get ⟨i, h⟩).undrawn =
        ((return_fund_info db).get ⟨i, h⟩).credit_line +
          ((return_fund_info db).get ⟨i, h⟩).finance_portion) ∧
     (∀ r ∈ (return_fund_info db).take i,
        r.fund = ((return_fund_info db).get ⟨i, h⟩).fund →
        dateLe r.con_date ((return_fund_info db).get ⟨i, h⟩).con_date)) := by
  have hkeys : (sortByLe fundKeyLe (dedupFirst []
      (((db.filterMap (fun r => r.exit_date.map (fun e => (r, e)))).map
        fundGroupKey)))).Pairwise fundKeyLe :=
    pairwise_sortByLe fundKeyLe fundKeyLe_total fundKeyLe_trans _
  have hRS : ((sortByLe fundKeyLe (dedupFirst []
      (((db.filterMap (fun r => r.exit_date.map (fun e => (r, e)))).map
        fundGroupKey)))).map (buildFundInfoRow
          (db.filterMap (fun r => r.exit_date.map (fun e => (r, e)))))).map
      (fun r => (r.fund, r.con_date)) =
      (sortByLe fundKeyLe (dedupFirst []
        (((db.filterMap (fun r => r.exit_date.map (fun e => (r, e)))).map
          fundGroupKey)))).map (fun k => (k.1, k.2.1)) := by
    rw [List.map_map]
    rfl
  exact undrawn_spec_of_sorted _ _ hkeys hRS i h


/-- Witness for C6: on the two-draw F1 ledger the second draw is reached,
and the theorem instantiates at it. -/
theorem c6_first_draw_full_capacity_witness :
    ∃ h : 1 < (return_fund_info dbC6).length,
      ((((return_fund_info dbC6).get ⟨1, h⟩).fund ∈
          ((return_fund_info dbC6).take 1).map FundInfoRow.fund →
        ((return_fund_info dbC6).get ⟨1, h⟩).undrawn =
          ((return_fund_info dbC6).get ⟨1, h⟩).finance_portion) ∧
       (((return_fund_info dbC6).get ⟨1, h⟩).fund ∉
          ((return_fund_info dbC6).take 1).map FundInfoRow.fund →
        ((return_fund_info dbC6).get ⟨1, h⟩).undrawn =
          ((return_fund_info dbC6).get ⟨1, h⟩).credit_line +
            ((return_fund_info dbC6).get ⟨1, h⟩).finance_portion) ∧
       (∀ r ∈ (return_fund_info dbC6).take 1,
          r.fund = ((return_fund_info dbC6).get ⟨1, h⟩).fund →
          dateLe r.con_date ((return_fund_info dbC6).get ⟨1, h⟩).con_date)) := by
  have hlen : 1 < (return_fund_info dbC6).length := by
    simp +decide [return_fund_info, fundInfoOfValid, buildFundInfoRow,
      applyUndrawn, sortByLe, insertSorted, dedupFirst, fundKeyLe,
      fundGroupKey, filterL, dateLt, dateLe, dbC6]
  exact ⟨hlen, c6_first_draw_full_capacity dbC6 1 hlen⟩

-- The hierarchy merge and net-metric assignment (C9).

/-- C9: with one facility, one deal and one fund metrics row, the stacked
hierarchy after net assignment is exactly three rows in rank order Facility,
Deal, Fund; the facility and deal rows carry the N/A sentinel in both net
columns, and the fund row's net columns are filled from the net metrics row
matched on the fund identifier. -/
theorem c9_hierarchy_merge (f3 : L3Row) (f2 : L2Row) (f1 : L1Row)
    (n : NetRow) (hm : n.fund = f1.fund) :
    assign_fund_net_metrics (merge_deal_level [f3] [f2] [f1]) [n] =
      [{ level := "Facility", id := f3.entity_id, name := f3.facility_name,
         paid_in := toNA f3.paid_in, distributed := toNA f3.distr,
         gross_irr := toNA f3.xirr, gross_moic := toNA f3.MOIC,
         net_irr := QNA.na, net_moic := QNA.na },
       { level := "Deal", id := f2.deal_id, name := f2.deal_name,
         paid_in := toNA f2.paid_in, distributed := toNA f2.distr,
         gross_irr := toNA f2.xirr, gross_moic := toNA f2.MOIC,
         net_irr := QNA.na, net_moic := QNA.na },
       { level := "Fund", id := f1.fund, name := f1.fund,
         paid_in := toNA f1.paid_in, distributed := toNA f1.distr,
         gross_irr := toNA f1.xirr, gross_moic := toNA f1.MOIC,
         net_irr := toNA n.xirr, net_moic := toNA n.MOIC }] := by
  obtain ⟨nf, nx, nM⟩ := n
  simp only at hm
  subst hm
  by_cases h3c : f1.fund = f3.entity_id <;>
    by_cases h2c : f1.fund = f2.deal_id
  · simp [assign_fund_net_metrics, merge_deal_level, filterL, toNA, h3c, h2c,
      h3c.symm.trans h2c]
  · simp [assign_fund_net_metrics, merge_deal_level, filterL, toNA, h3c, h2c,
      show ¬(f3.entity_id = f2.deal_id) from fun hh => h2c (h3c.trans hh)]
  · simp [assign_fund_net_metrics, merge_deal_level, filterL, toNA, h3c, h2c,
      show ¬(f2.deal_id = f3.entity_id) from fun hh => h3c (h2c.trans hh)]
  · simp [assign_fund_net_metrics, merge_deal_level, filterL, toNA, h3c, h2c]

/-- Witness for C9 on concrete one-row levels. -/
theorem c9_hierarchy_merge_witness :
    nC9.fund = f1C9.fund ∧
    assign_fund_net_metrics (merge_deal_level [f3C9] [f2C9] [f1C9]) [nC9] =
      [{ level := "Facility", id := "E1", name := "FacA",
         paid_in := QNA.val 100, distributed := QNA.val 120,
         gross_irr := QNA.val (2/10), gross_moic := QNA.val (6/5),
         net_irr := QNA.na, net_moic := QNA.na },
       { level := "Deal", id := "D1", name := "DealA",
         paid_in := QNA.val 100, distributed := QNA.val 120,
         gross_irr := QNA.val (2/10), gross_moic := QNA.val (6/5),
         net_irr := QNA.na, net_moic := QNA.na },
       { level := "Fund", id := "F1", name := "F1",
         paid_in := QNA.val 100, distributed := QNA.val 120,
         gross_irr := QNA.val (2/10), gross_moic := QNA.val (6/5),
         net_irr := QNA.val (15/100), net_moic := QNA.val (11/10) }] :=
  ⟨rfl, c9_hierarchy_merge f3C9 f2C9 f1C9 nC9 rfl⟩

-- Open positions are dropped by the fund-level aggregation (C10).

/-- Composing two filters is filtering by the conjunction. -/
theorem filterL_filterL (p q : α → Prop) [DecidablePred p] [DecidablePred q] :
    ∀ l : List α, filterL p (filterL q l) = filterL (fun x => p x ∧ q x) l
  | [] => rfl
  | x :: xs => by
    by_cases hq : q x
    · by_cases hp : p x
      · rw [filterL, if_pos hq, filterL, if_pos hp, filterL,
          if_pos ⟨hp, hq⟩, filterL_filterL p q xs]
      · rw [filterL, if_pos hq, filterL, if_neg hp, filterL,
          if_neg (fun hc => hp hc.1), filterL_filterL p q xs]
    · rw [filterL, if_neg hq, filterL, if_neg (fun hc => hq hc.2),
        filterL_filterL p q xs]

/-- Filters agreeing on the list filter it identically. -/
theorem filterL_congr {p q : α → Prop} [DecidablePred p] [DecidablePred q] :
    ∀ {l : List α}, (∀ x ∈ l, p x ↔ q x) → filterL p l = filterL q l
  | [], _ => rfl
  | x :: xs, h => by
    have hx := h x (List.mem_cons_self x xs)
    have hxs := filterL_congr (fun y hy => h y (List.mem_cons_of_mem x hy))
    by_cases hp : p x
    · rw [filterL, if_pos hp, filterL, if_pos (hx.mp hp), hxs]
    · rw [filterL, if_neg hp, filterL, if_neg (fun hc => hp (hx.mpr hc)), hxs]

/-- Dropping list elements on which the expansion is empty does not change
the flat map. -/
theorem flatMap_filterL_of_nil (q : α → Prop) [DecidablePred q]
    (f : α → List β) :
    ∀ l : List α, (∀ x ∈ l, ¬ q x → f x = []) →
      (filterL q l).flatMap f = l.flatMap f
  | [], _ => rfl
  | x :: xs, h => by
    have hxs := flatMap_filterL_of_nil q f xs
      (fun y hy => h y (List.mem_cons_of_mem x hy))
    by_cases hq : q x
    · rw [filterL, if_pos hq, List.flatMap_cons, List.flatMap_cons, hxs]
    · rw [filterL, if_neg hq, List.flatMap_cons,
        h x (List.mem_cons_self x xs) hq, List.nil_append, hxs]

/-- `filterMap` distributes over `flatMap`. -/
theorem filterMap_flatMap (g : α → List β) (f : β → Option γ) :
    ∀ l : List α,
      (l.flatMap g).filterMap f = l.flatMap (fun x => (g x).filterMap f)
  | [] => rfl
  | x :: xs => by
    rw [List.flatMap_cons, List.flatMap_cons, List.filterMap_append,
      filterMap_flatMap g f xs]

/-- A contribution row of an entity with no exit record expands to a single
null-exit fund row, which the valid-position filter then drops. -/
theorem contribRow_no_exit_filterMap (mdc : List MdcRow) (c : MdcRow)
    (hnoex : ∀ p ∈ exitData mdc, p.1 ≠ c.entity_id) :
    (contribRow (exitData mdc) c).filterMap
      (fun r => r.exit_date.map (fun d => (r, d))) = [] := by
  have hms : filterL (fun e => e.1 = c.entity_id) (exitData mdc) = [] :=
    filterL_eq_nil hnoex
  rw [contribRow]
  simp only [hms]
  rw [if_pos trivial]
  rfl

/-- C10: a fund position whose entity has no exit-fee record is silently
dropped by the aggregation: deleting its contribution rows from the ledger
changes neither the fund-info table, nor the monthly accrual schedule joined
against any curve, nor the financing cashflow rows. -/
theorem c10_open_position_dropped (mdc : List MdcRow) (e : String)
    (hnoexit : ∀ r ∈ mdc, r.cashflow_type = "exit_fee" → r.entity_id ≠ e) :
    (return_fund_info (clean_data_fund mdc) =
      return_fund_info (clean_data_fund (filterL
        (fun r => ¬(r.cashflow_type = "contribution" ∧ r.entity_id = e))
        mdc))) ∧
    (∀ curvedb : List CurvePoint,
      expand_and_join_curve (return_fund_info (clean_data_fund mdc))
          curvedb =
        expand_and_join_curve (return_fund_info (clean_data_fund (filterL
          (fun r => ¬(r.cashflow_type = "contribution" ∧ r.entity_id = e))
          mdc))) curvedb) ∧
    (∀ curvedb : List CurvePoint,
      calc_monthly_fee (expand_and_join_curve
          (return_fund_info (clean_data_fund mdc)) curvedb) =
        calc_monthly_fee (expand_and_join_curve
          (return_fund_info (clean_data_fund (filterL
            (fun r => ¬(r.cashflow_type = "contribution" ∧ r.entity_id = e))
            mdc))) curvedb)) := by
  -- the exit table is unchanged: only contribution rows are removed
  have hE : exitData (filterL
      (fun r => ¬(r.cashflow_type = "contribution" ∧ r.entity_id = e))
      mdc) = exitData mdc := by
    unfold exitData
    rw [filterL_filterL]
    refine congrArg _ (filterL_congr (fun x _ => ?_))
    constructor
    · exact fun hc => hc.1
    · intro hx
      refine ⟨hx, fun hc => ?_⟩
      rw [hx] at hc
      exact absurd hc.1 (by simp)
  -- entities with no exit record contribute nothing to the valid positions
  have hnil : ∀ c ∈ filterL (fun r => r.cashflow_type = "contribution") mdc,
      ¬ ¬(c.entity_id = e) →
      (contribRow (exitData mdc) c).filterMap
        (fun r => r.exit_date.map (fun d => (r, d))) = [] := by
    intro c hc hce
    have hce2 : c.entity_id = e := not_not.mp hce
    refine contribRow_no_exit_filterMap mdc c (fun p hp => ?_)
    rcases List.mem_map.mp hp with ⟨r, hr, hpr⟩
    rcases mem_filterL.mp hr with ⟨hrm, hrex⟩
    rw [← hpr, hce2]
    exact hnoexit r hrm hrex
  -- the valid positions coincide
  have hvalid : (clean_data_fund mdc).filterMap
      (fun r => r.exit_date.map (fun d => (r, d))) =
      (clean_data_fund (filterL
        (fun r => ¬(r.cashflow_type = "contribution" ∧ r.entity_id = e))
        mdc)).filterMap (fun r => r.exit_date.map (fun d => (r, d))) := by
    have hsw : filterL (fun x : MdcRow => x.cashflow_type = "contribution" ∧
        ¬(x.cashflow_type = "contribution" ∧ x.entity_id = e)) mdc =
        filterL (fun x : MdcRow => ¬(x.entity_id = e))
          (filterL (fun x : MdcRow => x.cashflow_type = "contribution")
            mdc) := by
      rw [filterL_filterL]
      exact filterL_congr (fun x _ =>
        ⟨fun hc => ⟨fun he2 => hc.2 ⟨hc.1, he2⟩, hc.1⟩,
         fun hc => ⟨hc.2, fun hand => hc.1 hand.2⟩⟩)
    unfold clean_data_fund
    simp only [hE, filterL_filterL, filterMap_flatMap]
    rw [hsw]
    exact (flatMap_filterL_of_nil _ _ _ hnil).symm
  have h1 : return_fund_info (clean_data_fund mdc) =
      return_fund_info (clean_data_fund (filterL
        (fun r => ¬(r.cashflow_type = "contribution" ∧ r.entity_id = e))
        mdc)) := congrArg fundInfoOfValid hvalid
  exact ⟨h1, fun curvedb => by rw [h1], fun curvedb => by rw [h1]⟩

/-- Witness for C10: the open position EO of the concrete two-entity ledger
is dropped from every output. -/
theorem c10_open_position_dropped_witness :
    (∀ r ∈ mdcC10, r.cashflow_type = "exit_fee" → r.entity_id ≠ "EO") ∧
    ((return_fund_info (clean_data_fund mdcC10) =
      return_fund_info (clean_data_fund (filterL
        (fun r => ¬(r.cashflow_type = "contribution" ∧ r.entity_id = "EO"))
        mdcC10))) ∧
    (∀ curvedb : List CurvePoint,
      expand_and_join_curve (return_fund_info (clean_data_fund mdcC10))
          curvedb =
        expand_and_join_curve (return_fund_info (clean_data_fund (filterL
          (fun r => ¬(r.cashflow_type = "contribution" ∧ r.entity_id = "EO"))
          mdcC10))) curvedb) ∧
    (∀ curvedb : List CurvePoint,
      calc_monthly_fee (expand_and_join_curve
          (return_fund_info (clean_data_fund mdcC10)) curvedb) =
        calc_monthly_fee (expand_and_join_curve
          (return_fund_info (clean_data_fund (filterL
            (fun r => ¬(r.cashflow_type = "contribution" ∧
              r.entity_id = "EO")) mdcC10))) curvedb))) :=
  ⟨by decide, c10_open_position_dropped mdcC10 "EO" (by decide)⟩

end PC
